import Mathlib

/-!
# Verification of the recovery-map metadata codec
(frameworks_native, libs/jpegrecoverymap/recoverymaputils.cpp)

Shallow embedding of the XMP metadata decoder/encoder (`getMetadataFromXMP`,
`generateXmp`) and the EXIF patcher (`updateExif`, `updateExifOffsets`,
`readValue`, `findFormatLengthInBytes`).

Byte strings are modelled as `List Char` (XMP side; every byte of interest is
ASCII and `Char` values are compared by code point exactly as the C++ compares
`char`s) and as `List Nat` (EXIF side; each element is one `uint8_t`).

C++ `float` values are modelled by `Decimal`, a signed decimal fixed-point
number: this captures that the XMP writer renders the value in decimal
notation and the reader parses it back with `stringstream` extraction; the
spec promises no rounding contract for the formatter, and no claim depends on
binary floating-point behaviour.

The external `image_io` XML reader and writer are not part of this
repository's sources; they are modelled from the spec (see `parseNodeP`,
`tokenize` and `XmlWriterState` below).
-/

set_option maxHeartbeats 4000000
set_option maxRecDepth 10000

namespace recoverymap

/-! ## Decimal digit rendering and parsing -/

/-- The character for a single decimal digit. -/
def digitChar (d : Nat) : Char := Char.ofNat (48 + d)

/-- Render a natural number in decimal (most significant digit first),
as the C++ stream `operator<<` does for non-negative integers. -/
def renderNat (n : Nat) : List Char :=
  if n = 0 then ['0'] else ((Nat.digits 10 n).reverse).map digitChar

/-- Numeric value of a big-endian digit string. -/
def digitsVal (l : List Char) : Nat :=
  l.foldl (fun acc c => acc * 10 + (c.toNat - 48)) 0

/-- Render a C++ `int`: an optional minus sign followed by decimal digits. -/
def renderInt (i : Int) : List Char :=
  if i < 0 then '-' :: renderNat i.natAbs else renderNat i.toNat

/-- Model of a C++ `float` as transported through its decimal rendering:
value `(-1)^neg * mant / 10^exp`. The XMP writer renders the float in
plain decimal notation and the reader parses it back, so only this decimal
view of the value is observable; the spec states no rounding contract. -/
structure Decimal where
  neg : Bool
  mant : Nat
  exp : Nat
  deriving DecidableEq, Repr

/-- Decimal digits of `n` without the `n = 0 → "0"` special case (used for
the fractional part, where padding supplies the zeros). -/
def renderNatRaw (n : Nat) : List Char := ((Nat.digits 10 n).reverse).map digitChar

/-- The digits of the unsigned part of a decimal rendering: integer part,
and when `e > 0` a point followed by exactly `e` fractional digits. -/
def renderDecBody (m e : Nat) : List Char :=
  if e = 0 then renderNat m
  else
    renderNat (m / 10 ^ e) ++ '.' ::
      (List.replicate (e - (Nat.digits 10 (m % 10 ^ e)).length) '0' ++
       renderNatRaw (m % 10 ^ e))

/-- Render a `Decimal` in plain decimal notation. -/
def renderDecimal (d : Decimal) : List Char :=
  (if d.neg then ['-'] else []) ++ renderDecBody d.mant d.exp

/-- `stringstream >> int`: an optional sign, then a non-empty digit run;
trailing characters are ignored (the C++ extraction stops at the first
non-digit and succeeds as long as at least one digit was read). -/
def parseIntPfx (l : List Char) : Option Int :=
  match l with
  | '-' :: r =>
    let ds := r.takeWhile (fun c => c.isDigit)
    if ds = [] then none else some (-(digitsVal ds : Int))
  | _ =>
    let ds := l.takeWhile (fun c => c.isDigit)
    if ds = [] then none else some ((digitsVal ds : Int))

/-- The unsigned part of `stringstream >> float` in plain decimal notation:
digits, optionally a point and more digits; at least one digit in total;
trailing characters are ignored. -/
def parseDecCore (neg : Bool) (r : List Char) : Option Decimal :=
  let ds1 := r.takeWhile (fun c => c.isDigit)
  let r1 := r.dropWhile (fun c => c.isDigit)
  match r1 with
  | '.' :: r2 =>
    let ds2 := r2.takeWhile (fun c => c.isDigit)
    if ds1 = [] ∧ ds2 = [] then none
    else some ⟨neg, digitsVal ds1 * 10 ^ ds2.length + digitsVal ds2, ds2.length⟩
  | _ => if ds1 = [] then none else some ⟨neg, digitsVal ds1, 0⟩

/-- `stringstream >> float`, restricted to plain decimal notation: optional
sign, then the unsigned part. -/
def parseDecimalPfx (l : List Char) : Option Decimal :=
  match l with
  | '-' :: r => parseDecCore true r
  | _ => parseDecCore false l

/-! ## XML documents, serialization, and SAX events

Modelled from the spec: the external `image_io` XML writer emits the nested
document shape of spec §4.2.2 (whitespace between tokens is insignificant and
omitted here), and the external `image_io` XML reader is a conformant
SAX-style reader that reports, for each element, a `StartElement` carrying the
(namespace-prefixed) element name, an `AttributeName`/`AttributeValue` pair per
attribute, the events of the children, and a `FinishElement`. -/

/-- An XML tree: character data or an element with attributes and children. -/
inductive XmlNode where
  | text (s : List Char)
  | elem (name : List Char) (attrs : List (List Char × List Char))
      (children : List XmlNode)

/-- Serialize an attribute list: one space before each `name="value"`. -/
def serializeAttrs : List (List Char × List Char) → List Char
  | [] => []
  | (a, v) :: rest => ' ' :: (a ++ '=' :: '"' :: (v ++ '"' :: serializeAttrs rest))

mutual
/-- Serialize one XML node; childless elements self-close. -/
def serializeNode : XmlNode → List Char
  | .text s => s
  | .elem n attrs cs =>
    '<' :: (n ++ serializeAttrs attrs ++
      (if cs.isEmpty then ['/', '>']
       else '>' :: (serializeNodes cs ++ ('<' :: '/' :: (n ++ ['>'])))))
/-- Serialize a list of XML nodes in order. -/
def serializeNodes : List XmlNode → List Char
  | [] => []
  | c :: cs => serializeNode c ++ serializeNodes cs
end

/-- The SAX events the XML reader delivers to an `XmlHandler`. -/
inductive XmlEvent where
  | startElement (name : List Char)
  | finishElement
  | attributeName (name : List Char)
  | attributeValue (v : List Char)
  deriving DecidableEq, Repr

/-- The per-attribute event pairs for an attribute list. -/
def attrEvents : List (List Char × List Char) → List XmlEvent
  | [] => []
  | (a, v) :: rest => .attributeName a :: .attributeValue v :: attrEvents rest

mutual
/-- The event sequence of one XML node. Character data produces no event
relevant to the handler under verification. -/
def eventsNode : XmlNode → List XmlEvent
  | .text _ => []
  | .elem n attrs cs =>
    .startElement n :: (attrEvents attrs ++ (eventsNodes cs ++ [.finishElement]))
/-- The event sequence of a list of XML nodes. -/
def eventsNodes : List XmlNode → List XmlEvent
  | [] => []
  | c :: cs => eventsNode c ++ eventsNodes cs
end

/-- Characters allowed in element and attribute names by the modelled reader:
anything except the structural characters. -/
def isNameChar (c : Char) : Bool :=
  c ≠ ' ' && c ≠ '=' && c ≠ '>' && c ≠ '/' && c ≠ '<' && c ≠ '"'

/-- Well-formedness of a name for exact reparsing. -/
def cleanName (n : List Char) : Prop := n ≠ [] ∧ ∀ c ∈ n, isNameChar c = true

/-- Well-formedness of an attribute list for exact reparsing: clean names and
quote-free values. -/
def cleanAttrs (attrs : List (List Char × List Char)) : Prop :=
  ∀ p ∈ attrs, cleanName p.1 ∧ ∀ c ∈ p.2, c ≠ '"'

mutual
/-- A tree whose serialization reparses to exactly its events. -/
def cleanNode : XmlNode → Prop
  | .text t => t ≠ [] ∧ ∀ c ∈ t, c ≠ '<'
  | .elem n attrs cs => cleanName n ∧ cleanAttrs attrs ∧ cleanNodes cs
/-- Children lists: either a single character-data child or a list of clean
elements (no character data mixed between elements). -/
def cleanNodes : List XmlNode → Prop
  | [] => True
  | [.text t] => t ≠ [] ∧ ∀ c ∈ t, c ≠ '<'
  | c :: cs =>
    (match c with | .elem _ _ _ => True | .text _ => False) ∧
      cleanNode c ∧ cleanNodes cs
end

/-- Parse a name: a non-empty run of name characters, returning the rest. -/
def parseName (l : List Char) : Option (List Char × List Char) :=
  let nm := l.takeWhile isNameChar
  if nm = [] then none else some (nm, l.dropWhile isNameChar)

mutual
/-- Modelled from the spec: the external `image_io` XML reader.
Parse one element starting at `'<'`, producing its SAX events and the
unconsumed tail. `fuel` only bounds the recursion and is chosen large enough
at the top level (`tokenize`). -/
def parseNodeP : Nat → List Char → Option (List XmlEvent × List Char)
  | fuel + 1, '<' :: r =>
    match parseName r with
    | none => none
    | some (nm, r1) =>
      match parseAttrsP fuel r1 with
      | none => none
      | some (aevs, r2, true) =>
        some (.startElement nm :: (aevs ++ [.finishElement]), r2)
      | some (aevs, r2, false) =>
        match parseContentP fuel r2 with
        | none => none
        | some (cevs, r3) =>
          match r3 with
          | '<' :: '/' :: r4 =>
            match parseName r4 with
            | some (nm2, '>' :: r5) =>
              if nm2 = nm then
                some (.startElement nm :: (aevs ++ (cevs ++ [.finishElement])), r5)
              else none
            | _ => none
          | _ => none
  | _, _ => none
/-- Parse the attribute region after an element name, up to `>` (returns
`false`) or `/>` (returns `true`). -/
def parseAttrsP : Nat → List Char → Option (List XmlEvent × List Char × Bool)
  | _ + 1, '/' :: '>' :: r => some ([], r, true)
  | _ + 1, '>' :: r => some ([], r, false)
  | fuel + 1, ' ' :: r =>
    match parseName r with
    | none => parseAttrsP fuel r
    | some (an, r1) =>
      match r1 with
      | '=' :: '"' :: r2 =>
        let v := r2.takeWhile (fun c => c ≠ '"')
        match r2.dropWhile (fun c => c ≠ '"') with
        | '"' :: r3 =>
          match parseAttrsP fuel r3 with
          | none => none
          | some (evs, r4, b) =>
            some (.attributeName an :: .attributeValue v :: evs, r4, b)
        | _ => none
      | _ => none
  | _, _ => none
/-- Parse element content (children and character data) up to, but not
including, a closing tag `</`. -/
def parseContentP : Nat → List Char → Option (List XmlEvent × List Char)
  | _ + 1, '<' :: '/' :: r => some ([], '<' :: '/' :: r)
  | fuel + 1, '<' :: r =>
    match parseNodeP fuel ('<' :: r) with
    | none => none
    | some (evs, r1) =>
      match parseContentP fuel r1 with
      | none => none
      | some (evs2, r2) => some (evs ++ evs2, r2)
  | fuel + 1, c :: r =>
    match parseContentP fuel ((c :: r).dropWhile (fun x => x ≠ '<')) with
    | none => none
    | some (evs, r2) => some (evs, r2)
  | _, _ => none
end

/-- Modelled from the spec: run the XML reader over a whole document.
`none` models `reader.HasErrors()` after the parse. The fuel is sufficient
for every input (each recursion step is tied to progress in the input). -/
def tokenize (l : List Char) : Option (List XmlEvent) :=
  match parseNodeP (4 * l.length + 8) l with
  | some (evs, []) => some evs
  | _ => none

/-! ## XMP constants and the `XMPXmlHandler` state machine (source lines 64–222) -/

/-- `Name(prefix, suffix)` produces `"prefix:suffix"` (source line 39). -/
def Name (p s : List Char) : List Char := p ++ ':' :: s

def kContainerPfx : List Char := "GContainer".toList
def kConDirectory : List Char := Name kContainerPfx "Directory".toList
def kConItem : List Char := Name kContainerPfx "Item".toList
def kConItemLength : List Char := Name kContainerPfx "ItemLength".toList
def kConItemMime : List Char := Name kContainerPfx "ItemMime".toList
def kConItemSemantic : List Char := Name kContainerPfx "ItemSemantic".toList
def kConVersion : List Char := Name kContainerPfx "Version".toList
def kContainerUri : List Char := "http://ns.google.com/photos/1.0/container/".toList
def kSemanticPrimary : List Char := "Primary".toList
def kSemanticRecoveryMap : List Char := "RecoveryMap".toList
def kMimeImageJpeg : List Char := "image/jpeg".toList
def kGContainerVersion : Nat := 1

def kRecoveryMapPfx : List Char := "RecoveryMap".toList
def kRecoveryMapUri : List Char := "http://ns.google.com/photos/1.0/recoverymap/".toList
def kMapRangeScalingFactor : List Char := Name kRecoveryMapPfx "RangeScalingFactor".toList
def kMapTransferFunction : List Char := Name kRecoveryMapPfx "TransferFunction".toList
def kMapVersion : List Char := Name kRecoveryMapPfx "Version".toList
def kMapHdr10Metadata : List Char := Name kRecoveryMapPfx "HDR10Metadata".toList
def kMapHdr10MaxFall : List Char := Name kRecoveryMapPfx "HDR10MaxFALL".toList
def kMapHdr10MaxCll : List Char := Name kRecoveryMapPfx "HDR10MaxCLL".toList
def kMapSt2086Metadata : List Char := Name kRecoveryMapPfx "ST2086Metadata".toList
def kMapSt2086MaxLum : List Char := Name kRecoveryMapPfx "ST2086MaxLuminance".toList
def kMapSt2086MinLum : List Char := Name kRecoveryMapPfx "ST2086MinLuminance".toList
def kMapSt2086Primary : List Char := Name kRecoveryMapPfx "ST2086Primary".toList
def kMapSt2086Coordinate : List Char := Name kRecoveryMapPfx "ST2086Coordinate".toList
def kMapSt2086CoordinateX : List Char := Name kRecoveryMapPfx "ST2086CoordinateX".toList
def kMapSt2086CoordinateY : List Char := Name kRecoveryMapPfx "ST2086CoordinateY".toList

def kSt2086PrimaryRed : Nat := 0
def kSt2086PrimaryGreen : Nat := 1
def kSt2086PrimaryBlue : Nat := 2
def kSt2086PrimaryWhite : Nat := 3

/-- Handler parse state (the `NotStrarted` spelling is the source's own). -/
inductive ParseState where
  | NotStrarted
  | Started
  | Done
  deriving DecidableEq, Repr

/-- The fields of `XMPXmlHandler` (source lines 161–168). -/
structure XMPXmlHandler where
  rangeScalingFactorStr : List Char := []
  transferFunctionStr : List Char := []
  lastAttributeName : List Char := []
  gContainerItemState : ParseState := .NotStrarted
  deriving DecidableEq, Repr

/-- `XMPXmlHandler::StartElement` (source lines 78–90). -/
def startElementF (h : XMPXmlHandler) (val : List Char) : XMPXmlHandler :=
  if val = kConItem then { h with gContainerItemState := .Started }
  else if h.gContainerItemState ≠ .Done then
    { h with gContainerItemState := .NotStrarted }
  else h

/-- `XMPXmlHandler::FinishElement` (source lines 92–98). -/
def finishElementF (h : XMPXmlHandler) : XMPXmlHandler :=
  if h.gContainerItemState = .Started then
    { h with gContainerItemState := .Done, lastAttributeName := [] }
  else h

/-- `XMPXmlHandler::AttributeName` (source lines 100–114). -/
def attributeNameF (h : XMPXmlHandler) (val : List Char) : XMPXmlHandler :=
  if h.gContainerItemState = .Started then
    if val = kMapRangeScalingFactor then
      { h with lastAttributeName := kMapRangeScalingFactor }
    else if val = kMapTransferFunction then
      { h with lastAttributeName := kMapTransferFunction }
    else { h with lastAttributeName := [] }
  else h

/-- `XMPXmlHandler::AttributeValue` (source lines 116–128). -/
def attributeValueF (h : XMPXmlHandler) (val : List Char) : XMPXmlHandler :=
  if h.gContainerItemState = .Started then
    if h.lastAttributeName = kMapRangeScalingFactor then
      { h with rangeScalingFactorStr := val }
    else if h.lastAttributeName = kMapTransferFunction then
      { h with transferFunctionStr := val }
    else h
  else h

/-- Dispatch one SAX event to the handler. -/
def stepEvent (h : XMPXmlHandler) : XmlEvent → XMPXmlHandler
  | .startElement n => startElementF h n
  | .finishElement => finishElementF h
  | .attributeName n => attributeNameF h n
  | .attributeValue v => attributeValueF h v

/-- Deliver a whole event sequence to the handler. -/
def runHandler (evs : List XmlEvent) (h : XMPXmlHandler) : XMPXmlHandler :=
  evs.foldl stepEvent h

/-- `XMPXmlHandler::getRangeScalingFactor` (source lines 130–143): succeeds,
returning the parsed value, only in state `Done` and when the stored string
parses as a number. -/
def getRangeScalingFactor (h : XMPXmlHandler) : Option Decimal :=
  if h.gContainerItemState = .Done then parseDecimalPfx h.rangeScalingFactorStr
  else none

/-- `XMPXmlHandler::getTransferFunction` (source lines 145–159): the parsed
`int` is cast to the enum unchecked, so the result is the raw integer. -/
def getTransferFunction (h : XMPXmlHandler) : Option Int :=
  if h.gContainerItemState = .Done then parseIntPfx h.transferFunctionStr
  else none

/-! ## Metadata record (jpegr.h, declared outside src; fields per spec §3) -/

/-- The transfer-function enum's named values. The C++ field is an enum cast
from a raw `int`, so the Lean field is `Int`; these are the named points. -/
def JPEGR_TF_UNSPECIFIED : Int := 0
def JPEGR_TF_LINEAR : Int := 1
def JPEGR_TF_HLG : Int := 2
def JPEGR_TF_PQ : Int := 3
def JPEGR_TF_SRGB : Int := 4

structure st2086_coordinate where
  x : Decimal := ⟨false, 0, 0⟩
  y : Decimal := ⟨false, 0, 0⟩
  deriving DecidableEq, Repr

structure st2086_metadata where
  maxLuminance : Decimal := ⟨false, 0, 0⟩
  minLuminance : Decimal := ⟨false, 0, 0⟩
  redPrimary : st2086_coordinate := {}
  greenPrimary : st2086_coordinate := {}
  bluePrimary : st2086_coordinate := {}
  whitePoint : st2086_coordinate := {}
  deriving DecidableEq, Repr

structure hdr10_metadata where
  maxFALL : Nat := 0
  maxCLL : Nat := 0
  st2086Metadata : st2086_metadata := {}
  deriving DecidableEq, Repr

structure jpegr_metadata where
  version : Nat := 0
  rangeScalingFactor : Decimal := ⟨false, 0, 0⟩
  transferFunction : Int := 0
  hdr10Metadata : hdr10_metadata := {}
  deriving DecidableEq, Repr

/-! ## The XML writer (modelled from the spec) and `generateXmp` -/

/-- Modelled from the spec: the external `image_io::XmlWriter`. The writer
state is the stack of currently open elements (name, attributes so far,
completed children so far) plus the finished root nodes. -/
structure XmlWriterState where
  stack : List (List Char × List (List Char × List Char) × List XmlNode) := []
  roots : List XmlNode := []

def XmlWriterState.startWritingElement (w : XmlWriterState) (n : List Char) :
    XmlWriterState :=
  { w with stack := (n, [], []) :: w.stack }

def XmlWriterState.writeAttributeNameAndValue (w : XmlWriterState)
    (a v : List Char) : XmlWriterState :=
  match w.stack with
  | [] => w
  | (n, as, cs) :: rest => { w with stack := (n, as ++ [(a, v)], cs) :: rest }

def XmlWriterState.writeXmlns (w : XmlWriterState) (p uri : List Char) :
    XmlWriterState :=
  w.writeAttributeNameAndValue ("xmlns:".toList ++ p) uri

def XmlWriterState.finishWritingElement (w : XmlWriterState) : XmlWriterState :=
  match w.stack with
  | [] => w
  | (n, as, cs) :: rest =>
    match rest with
    | [] => { stack := [], roots := w.roots ++ [.elem n as cs] }
    | (pn, pas, pcs) :: prest =>
      { w with stack := (pn, pas, pcs ++ [.elem n as cs]) :: prest }

def XmlWriterState.writeElementAndContent (w : XmlWriterState)
    (n content : List Char) : XmlWriterState :=
  let w1 := w.startWritingElement n
  let w2 := match w1.stack with
    | [] => w1
    | (nm, as, cs) :: rest =>
      { w1 with stack := (nm, as, cs ++ [XmlNode.text content]) :: rest }
  w2.finishWritingElement

/-- Start a sequence of nested elements; returns the new state and the depth
of the stack before the pushes (used by `finishWritingElementsToDepth`). -/
def XmlWriterState.startWritingElements (w : XmlWriterState)
    (names : List (List Char)) : XmlWriterState × Nat :=
  (names.foldl (fun acc n => acc.startWritingElement n) w, w.stack.length)

/-- Close elements until the stack is back to depth `d`. -/
def XmlWriterState.finishWritingElementsToDepth (w : XmlWriterState) (d : Nat) :
    XmlWriterState :=
  go w.stack.length w
where
  go : Nat → XmlWriterState → XmlWriterState
    | 0, acc => acc
    | fuel + 1, acc =>
      if acc.stack.length ≤ d then acc else go fuel acc.finishWritingElement

/-- Close everything. -/
def XmlWriterState.finishWriting (w : XmlWriterState) : XmlWriterState :=
  w.finishWritingElementsToDepth 0

/-- `generateXmp` (source lines 269–345): the exact writer-call sequence of
the source, producing the serialized document. -/
def generateXmp (secondary_image_length : Int) (metadata : jpegr_metadata) :
    List Char :=
  let w : XmlWriterState := {}
  let w := w.startWritingElement "x:xmpmeta".toList
  let w := w.writeXmlns "x".toList "adobe:ns:meta/".toList
  let w := w.writeAttributeNameAndValue "x:xmptk".toList "Adobe XMP Core 5.1.2".toList
  let w := w.startWritingElement "rdf:RDF".toList
  let w := w.writeXmlns "rdf".toList "http://www.w3.org/1999/02/22-rdf-syntax-ns#".toList
  let w := w.startWritingElement "rdf:Description".toList
  let w := w.writeXmlns kContainerPfx kContainerUri
  let w := w.writeXmlns kRecoveryMapPfx kRecoveryMapUri
  let w := w.writeElementAndContent kConVersion (renderNat kGContainerVersion)
  let w := (w.startWritingElements [kConDirectory, "rdf:Seq".toList]).1
  let wi := w.startWritingElements ["rdf:li".toList, kConItem]
  let w := wi.1
  let item_depth := wi.2
  let w := w.writeAttributeNameAndValue kConItemSemantic kSemanticPrimary
  let w := w.writeAttributeNameAndValue kConItemMime kMimeImageJpeg
  let w := w.writeAttributeNameAndValue kMapVersion (renderNat metadata.version)
  let w := w.writeAttributeNameAndValue kMapRangeScalingFactor
    (renderDecimal metadata.rangeScalingFactor)
  let w := w.writeAttributeNameAndValue kMapTransferFunction
    (renderInt metadata.transferFunction)
  let w :=
    if metadata.transferFunction = JPEGR_TF_PQ then
      let w := w.startWritingElement kMapHdr10Metadata
      let w := w.writeAttributeNameAndValue kMapHdr10MaxFall
        (renderNat metadata.hdr10Metadata.maxFALL)
      let w := w.writeAttributeNameAndValue kMapHdr10MaxCll
        (renderNat metadata.hdr10Metadata.maxCLL)
      let w := w.startWritingElement kMapSt2086Metadata
      let w := w.writeAttributeNameAndValue kMapSt2086MaxLum
        (renderDecimal metadata.hdr10Metadata.st2086Metadata.maxLuminance)
      let w := w.writeAttributeNameAndValue kMapSt2086MinLum
        (renderDecimal metadata.hdr10Metadata.st2086Metadata.minLuminance)
      let w := w.startWritingElement kMapSt2086Coordinate
      let w := w.writeAttributeNameAndValue kMapSt2086Primary
        (renderNat kSt2086PrimaryRed)
      let w := w.writeAttributeNameAndValue kMapSt2086CoordinateX
        (renderDecimal metadata.hdr10Metadata.st2086Metadata.redPrimary.x)
      let w := w.writeAttributeNameAndValue kMapSt2086CoordinateY
        (renderDecimal metadata.hdr10Metadata.st2086Metadata.redPrimary.y)
      let w := w.finishWritingElement
      let w := w.startWritingElement kMapSt2086Coordinate
      let w := w.writeAttributeNameAndValue kMapSt2086Primary
        (renderNat kSt2086PrimaryGreen)
      let w := w.writeAttributeNameAndValue kMapSt2086CoordinateX
        (renderDecimal metadata.hdr10Metadata.st2086Metadata.greenPrimary.x)
      let w := w.writeAttributeNameAndValue kMapSt2086CoordinateY
        (renderDecimal metadata.hdr10Metadata.st2086Metadata.greenPrimary.y)
      let w := w.finishWritingElement
      let w := w.startWritingElement kMapSt2086Coordinate
      let w := w.writeAttributeNameAndValue kMapSt2086Primary
        (renderNat kSt2086PrimaryBlue)
      let w := w.writeAttributeNameAndValue kMapSt2086CoordinateX
        (renderDecimal metadata.hdr10Metadata.st2086Metadata.bluePrimary.x)
      let w := w.writeAttributeNameAndValue kMapSt2086CoordinateY
        (renderDecimal metadata.hdr10Metadata.st2086Metadata.bluePrimary.y)
      let w := w.finishWritingElement
      let w := w.startWritingElement kMapSt2086Coordinate
      let w := w.writeAttributeNameAndValue kMapSt2086Primary
        (renderNat kSt2086PrimaryWhite)
      let w := w.writeAttributeNameAndValue kMapSt2086CoordinateX
        (renderDecimal metadata.hdr10Metadata.st2086Metadata.whitePoint.x)
      let w := w.writeAttributeNameAndValue kMapSt2086CoordinateY
        (renderDecimal metadata.hdr10Metadata.st2086Metadata.whitePoint.y)
      let w := w.finishWritingElement
      w
    else w
  let w := w.finishWritingElementsToDepth item_depth
  let w := (w.startWritingElements ["rdf:li".toList, kConItem]).1
  let w := w.writeAttributeNameAndValue kConItemSemantic kSemanticRecoveryMap
  let w := w.writeAttributeNameAndValue kConItemMime kMimeImageJpeg
  let w := w.writeAttributeNameAndValue kConItemLength
    (renderInt secondary_image_length)
  let w := w.finishWriting
  serializeNodes w.roots

/-! ## `getMetadataFromXMP` (source lines 224–267) -/

/-- The distinct `return false` sites of `getMetadataFromXMP`, named per the
spec's error surface (§6): each constructor corresponds to one source comment
("Data too short", "Not correct namespace", parse/conversion failure). The
C++ function itself collapses them into `false`. -/
inductive XmpResult where
  | ok
  | shortInput
  | notXmpNamespace
  | xmpMalformed
  deriving DecidableEq, Repr

/-- The Adobe XMP namespace string as the C++ builds it: the literal
`"http://ns.adobe.com/xap/1.0/\0"` assigned to a `std::string` stops at the
embedded NUL, so the stored string has 28 characters without a trailing NUL. -/
def xmpNameSpace : List Char := "http://ns.adobe.com/xap/1.0/".toList

/-- The trim loop of source lines 243–245, run over the reversed buffer:
drop leading (i.e. trailing) bytes until a `'>'` is found, but never drop
the final remaining byte. -/
def trimTailRev : List Char → List Char
  | [] => []
  | [c] => [c]
  | c :: rest => if c = '>' then c :: rest else trimTailRev rest

/-- Trim trailing bytes until the last remaining byte is `'>'`, never
shrinking below one byte (source lines 243–245). -/
def trimTail (l : List Char) : List Char :=
  (trimTailRev l.reverse).reverse

/-- `getMetadataFromXMP` (source lines 224–267). The metadata record is
passed and returned explicitly, modelling the C++ out-pointer: note that
`metadata->rangeScalingFactor` is already written when the later
transfer-function conversion fails. -/
def getMetadataFromXMP (xmp_data : List Char) (metadata : jpegr_metadata) :
    XmpResult × jpegr_metadata :=
  if xmp_data.length < xmpNameSpace.length + 2 then (.shortInput, metadata)
  else if xmp_data.take xmpNameSpace.length ≠ xmpNameSpace then
    (.notXmpNamespace, metadata)
  else
    let rest := xmp_data.drop (xmpNameSpace.length + 1)
    let str := trimTail rest
    match tokenize str with
    | none => (.xmpMalformed, metadata)
    | some evs =>
      let handler := runHandler evs {}
      match getRangeScalingFactor handler with
      | none => (.xmpMalformed, metadata)
      | some rsf =>
        let metadata := { metadata with rangeScalingFactor := rsf }
        match getTransferFunction handler with
        | none => (.xmpMalformed, metadata)
        | some tf => (.ok, { metadata with transferFunction := tf })

/-! ## EXIF patcher (source lines 347–526)

EXIF payloads are byte lists (`List Nat`, one `uint8_t` per element). A byte
is read through `byteAt`, which reduces modulo 256 exactly as real memory
holds a `uint8_t`; out-of-range reads yield 0 (in the C++ they are undefined
behaviour, and every theorem below keeps positions in bounds). -/

def EXIF_J_R_ENTRY_LENGTH : Nat := 12
def PSEUDO_EXIF_PACKAGE_LENGTH : Nat := 28

/-- The status_t values used by this file. -/
inductive Status where
  | NO_ERROR
  | ERROR_JPEGR_BUFFER_TOO_SMALL
  | ERROR_JPEGR_METADATA_ERROR
  deriving DecidableEq, Repr

/-- `Write(jr_exif_ptr destination, …)` (source lines 58–62): copies
unconditionally — unlike its `jr_compressed_ptr` sibling (lines 48–56) it
performs no capacity check and always returns `NO_ERROR`. The destination is
modelled as the byte sequence written so far; the cursor is its length. -/
def Write (destination source : List Nat) : Status × List Nat :=
  (.NO_ERROR, destination ++ source)

/-- One byte of memory: a `uint8_t` value. -/
def byteAt (data : List Nat) (i : Nat) : Nat := data.getD i 0 % 256

/-- Unsigned big/little-endian decoding of 2 bytes at `pos`. -/
def decode2 (data : List Nat) (pos : Nat) (big : Bool) : Nat :=
  if big then byteAt data pos * 256 + byteAt data (pos + 1)
  else byteAt data (pos + 1) * 256 + byteAt data pos

/-- Unsigned big/little-endian decoding of 4 bytes at `pos`. -/
def decode4 (data : List Nat) (pos : Nat) (big : Bool) : Nat :=
  if big then
    byteAt data pos * 16777216 + byteAt data (pos + 1) * 65536 +
      byteAt data (pos + 2) * 256 + byteAt data (pos + 3)
  else
    byteAt data (pos + 3) * 16777216 + byteAt data (pos + 2) * 65536 +
      byteAt data (pos + 1) * 256 + byteAt data pos

/-- Reinterpret an unsigned 32-bit value as the C++ `int` that the `<<`/`|`
expression in `readValue` produces (two's complement). -/
def toInt32 (n : Nat) : Int :=
  if n < 2147483648 then (n : Int) else (n : Int) - 4294967296

/-- `readValue` (source lines 475–493): big/little-endian read of 2 or 4
bytes into an `int`; unsupported lengths yield -1. -/
def readValue (data : List Nat) (pos : Nat) (length : Nat) (big : Bool) : Int :=
  if length = 2 then (decode2 data pos big : Int)
  else if length = 4 then toInt32 (decode4 data pos big)
  else -1

/-- `findFormatLengthInBytes` (source lines 499–526). Unknown format codes
log an error and return -1; no error status is produced. -/
def findFormatLengthInBytes (data_format : Int) : Int :=
  if data_format = 1 ∨ data_format = 2 ∨ data_format = 6 ∨ data_format = 7 then 1
  else if data_format = 3 ∨ data_format = 8 then 2
  else if data_format = 4 ∨ data_format = 9 ∨ data_format = 11 then 4
  else if data_format = 5 ∨ data_format = 10 ∨ data_format = 12 then 8
  else -1

/-- Store the low 32 bits of `v` in the value field (bytes `pos+8 … pos+11`)
of the entry at `pos`, in the given endianness, exactly as source lines
458–467 do byte by byte (the arithmetic shift-and-mask of a two's-complement
`int` extracts the bits of `v mod 2^32`). -/
def write32 (data : List Nat) (pos : Nat) (v : Int) (big : Bool) : List Nat :=
  let w := (v % 4294967296).toNat
  if big then
    ((((data.set (pos + 11) (w % 256)).set (pos + 10) (w / 256 % 256)).set
        (pos + 9) (w / 65536 % 256)).set (pos + 8) (w / 16777216 % 256))
  else
    ((((data.set (pos + 8) (w % 256)).set (pos + 9) (w / 256 % 256)).set
        (pos + 10) (w / 65536 % 256)).set (pos + 11) (w / 16777216 % 256))

/-- The entry loop of `updateExifOffsets` (source lines 428–470), with the
two-argument overload (lines 423–426) inlined at the SubIFD recursion site.
`fuel` bounds the SubIFD recursion depth only; the C++ recursion is
unbounded (spec §9 flags unguarded cyclic references), and every theorem
below supplies sufficient fuel. Note `pos` here is relative to the value
+8 slot the C++ writes at `pos + 8 … pos + 11`. -/
def updateExifOffsetsLoop (fuel : Nat) (data : List Nat) (pos : Nat)
    (num_entry : Nat) (big : Bool) : List Nat :=
  match fuel, num_entry with
  | _, 0 => data
  | 0, _ + 1 => data
  | f + 1, n + 1 =>
    let tag := readValue data pos 2 big
    let data2 :=
      if tag = 0x8769 then
        let sub_ifd_offset := (readValue data (pos + 8) 4 big + 6 +
          (EXIF_J_R_ENTRY_LENGTH : Int)).toNat
        let data1 :=
          updateExifOffsetsLoop f data (sub_ifd_offset + 2)
            (readValue data sub_ifd_offset 2 big).toNat big
        write32 data1 pos
          (readValue data1 (pos + 8) 4 big + (EXIF_J_R_ENTRY_LENGTH : Int)) big
      else
        let data_format := readValue data (pos + 2) 2 big
        let num_of_components := readValue data (pos + 4) 4 big
        let data_length := findFormatLengthInBytes data_format * num_of_components
        if data_length > 4 then
          write32 data pos
            (readValue data (pos + 8) 4 big + (EXIF_J_R_ENTRY_LENGTH : Int)) big
        else data
    updateExifOffsetsLoop f data2 (pos + EXIF_J_R_ENTRY_LENGTH) n big

/-- The two-argument `updateExifOffsets` overload (source lines 423–426):
read the 2-byte entry count at `pos`, then walk that many entries. -/
def updateExifOffsetsAt (fuel : Nat) (data : List Nat) (pos : Nat)
    (big : Bool) : List Nat :=
  updateExifOffsetsLoop fuel data (pos + 2) (readValue data pos 2 big).toNat big

/-- The fixed 28-byte pseudo-EXIF package (source lines 353–361). -/
def pseudoExifPackage : List Nat :=
  [0x45, 0x78, 0x69, 0x66, 0x00, 0x00,
   0x49, 0x49, 0x2A, 0x00,
   0x08, 0x00, 0x00, 0x00,
   0x01, 0x00,
   0x4A, 0x52,
   0x07, 0x00,
   0x01, 0x00, 0x00, 0x00,
   0x00, 0x00, 0x00, 0x00]

/-- The inserted JR entry (source lines 392–396 / 401–405). -/
def jrEntry (big : Bool) : List Nat :=
  if big then [0x4A, 0x52, 0x00, 0x07, 0x00, 0x00, 0x00, 0x01, 0x00, 0x00, 0x00, 0x00]
  else [0x4A, 0x52, 0x07, 0x00, 0x01, 0x00, 0x00, 0x00, 0x00, 0x00, 0x00, 0x00]

/-- `updateExif` (source lines 351–417). `none` models a null `exif` (or a
null `exif->data`). The destination is returned as the byte sequence the
unchecked `Write` calls produce, then mutated in place by the offset walk.
The endianness test reads bytes 6–7 as a host-little-endian `uint16_t`
(`reinterpret_cast<uint16_t*>(exif->data)[3]`). -/
def updateExif (exif : Option (List Nat)) : Status × List Nat :=
  match exif with
  | none => Write [] pseudoExifPackage
  | some d =>
    let mark := byteAt d 7 * 256 + byteAt d 6
    if mark = 0x4949 ∨ mark = 0x4d4d then
      let use_big_endian := mark = 0x4d4d
      let num_entry_low := if use_big_endian then byteAt d 15 else byteAt d 14
      let num_entry_high := if use_big_endian then byteAt d 14 else byteAt d 15
      let num_entry := num_entry_high * 256 + num_entry_low + 1
      let countBytes :=
        if use_big_endian then [num_entry / 256 % 256, num_entry % 256]
        else [num_entry % 256, num_entry / 256 % 256]
      let dest := d.take 14 ++ countBytes ++ jrEntry use_big_endian ++ d.drop 16
      let dest := updateExifOffsetsLoop dest.length dest 28 (num_entry - 1)
        use_big_endian
      (.NO_ERROR, dest)
    else (.ERROR_JPEGR_METADATA_ERROR, [])

/-! ## Recursion measure for the XML reader, and the generated document -/

mutual
/-- Fuel measure: an upper bound on the reader recursion needed to parse the
serialization of a node. -/
def sizeNode : XmlNode → Nat
  | .text _ => 1
  | .elem _ attrs cs => 2 + attrs.length + sizeNodes cs
/-- Fuel measure for content lists. -/
def sizeNodes : List XmlNode → Nat
  | [] => 1
  | c :: cs => 1 + sizeNode c + sizeNodes cs
end

/-- The full 29-byte Adobe namespace APP1 header: URI plus trailing NUL. -/
def adobeHeader : List Char := xmpNameSpace ++ [Char.ofNat 0]

/-- The attribute list of the primary `GContainer:Item`. -/
def genItem1Attrs (m : jpegr_metadata) : List (List Char × List Char) :=
  [(kConItemSemantic, kSemanticPrimary),
   (kConItemMime, kMimeImageJpeg),
   (kMapVersion, renderNat m.version),
   (kMapRangeScalingFactor, renderDecimal m.rangeScalingFactor),
   (kMapTransferFunction, renderInt m.transferFunction)]

/-- One `ST2086Coordinate` element. -/
def genCoord (p : Nat) (c : st2086_coordinate) : XmlNode :=
  .elem kMapSt2086Coordinate
    [(kMapSt2086Primary, renderNat p),
     (kMapSt2086CoordinateX, renderDecimal c.x),
     (kMapSt2086CoordinateY, renderDecimal c.y)] []

/-- The `HDR10Metadata` subtree emitted when the transfer function is PQ. -/
def genHdr10 (h : hdr10_metadata) : XmlNode :=
  .elem kMapHdr10Metadata
    [(kMapHdr10MaxFall, renderNat h.maxFALL),
     (kMapHdr10MaxCll, renderNat h.maxCLL)]
    [.elem kMapSt2086Metadata
      [(kMapSt2086MaxLum, renderDecimal h.st2086Metadata.maxLuminance),
       (kMapSt2086MinLum, renderDecimal h.st2086Metadata.minLuminance)]
      [genCoord 0 h.st2086Metadata.redPrimary,
       genCoord 1 h.st2086Metadata.greenPrimary,
       genCoord 2 h.st2086Metadata.bluePrimary,
       genCoord 3 h.st2086Metadata.whitePoint]]

/-- The document tree that the `generateXmp` writer-call sequence builds. -/
def genDoc (secondary_image_length : Int) (m : jpegr_metadata) : XmlNode :=
  .elem "x:xmpmeta".toList
    [("xmlns:x".toList, "adobe:ns:meta/".toList),
     ("x:xmptk".toList, "Adobe XMP Core 5.1.2".toList)]
    [.elem "rdf:RDF".toList
      [("xmlns:rdf".toList, "http://www.w3.org/1999/02/22-rdf-syntax-ns#".toList)]
      [.elem "rdf:Description".toList
        [("xmlns:GContainer".toList, kContainerUri),
         ("xmlns:RecoveryMap".toList, kRecoveryMapUri)]
        [.elem kConVersion [] [.text (renderNat kGContainerVersion)],
         .elem kConDirectory []
           [.elem "rdf:Seq".toList []
             [.elem "rdf:li".toList []
               [.elem kConItem (genItem1Attrs m)
                 (if m.transferFunction = JPEGR_TF_PQ then [genHdr10 m.hdr10Metadata]
                  else [])],
              .elem "rdf:li".toList []
                [.elem kConItem
                  [(kConItemSemantic, kSemanticRecoveryMap),
                   (kConItemMime, kMimeImageJpeg),
                   (kConItemLength, renderInt secondary_image_length)] []]]]]]]

/-! ## Structured view of TIFF/IFD entries (for stating the EXIF claims) -/

/-- One 12-byte IFD entry: tag (2 bytes), format (2), count (4), value (4). -/
structure ExifEntry where
  tag : Nat
  format : Nat
  count : Nat
  value : Nat
  deriving DecidableEq, Repr

/-- The bytes at `pos` hold `e` in the given endianness. -/
def decodesEntryAt (data : List Nat) (pos : Nat) (big : Bool) (e : ExifEntry) :
    Prop :=
  decode2 data pos big = e.tag ∧ decode2 data (pos + 2) big = e.format ∧
  decode4 data (pos + 4) big = e.count ∧ decode4 data (pos + 8) big = e.value

instance (data : List Nat) (pos : Nat) (big : Bool) (e : ExifEntry) :
    Decidable (decodesEntryAt data pos big e) := by
  unfold decodesEntryAt
  infer_instance

/-- The walk treats this entry's value field as an offset (source line 445):
the computed `data_length` exceeds the four inline bytes. -/
def needsUpdate (e : ExifEntry) : Prop :=
  findFormatLengthInBytes (e.format : Int) * toInt32 e.count > 4

instance (e : ExifEntry) : Decidable (needsUpdate e) := by
  unfold needsUpdate
  infer_instance


/-- Positions untouched by the SubIFD walks described by `items`. -/
def subUntouched (items : List (ExifEntry × Option (List ExifEntry)))
    (i : Nat) : Prop :=
  ∀ j (hj : j < items.length), ∀ fs, items[j].2 = some fs →
    i < (items[j].1).value + 20 ∨ (items[j].1).value + 20 + 12 * fs.length ≤ i

/-- The two count bytes `updateExif` writes at offsets 14–15: the original
IFD0 entry count plus one, in the detected endianness. -/
def countB (d : List Nat) (big : Bool) : List Nat :=
  if big then
    [(decode2 d 14 big + 1) / 256 % 256, (decode2 d 14 big + 1) % 256]
  else
    [(decode2 d 14 big + 1) % 256, (decode2 d 14 big + 1) / 256 % 256]

/-! ## Concrete EXIF payloads for the claim instances -/

/-- Little-endian payload with one IFD0 entry (tag 0x0111, format 1,
count 5): 5 bytes exceed the 4 inline bytes, so the value field 26 is an
offset the walk must shift. -/
def exifOffsetInput : List Nat :=
  [0x45, 0x78, 0x69, 0x66, 0x00, 0x00,
   0x49, 0x49, 0x2A, 0x00,
   0x08, 0x00, 0x00, 0x00,
   0x01, 0x00,
   0x11, 0x01, 0x01, 0x00, 0x05, 0x00, 0x00, 0x00, 0x1A, 0x00, 0x00, 0x00,
   0x41, 0x41, 0x41, 0x41, 0x41]

/-- Little-endian payload with one IFD0 entry carrying the unknown format
code 13. -/
def exifUnknownFormatInput : List Nat :=
  [0x45, 0x78, 0x69, 0x66, 0x00, 0x00,
   0x49, 0x49, 0x2A, 0x00,
   0x08, 0x00, 0x00, 0x00,
   0x01, 0x00,
   0x11, 0x01, 0x0D, 0x00, 0x01, 0x00, 0x00, 0x00, 0x1A, 0x00, 0x00, 0x00]

/-- Little-endian payload with one inline IFD0 entry (format 1, count 1:
one byte, stored inline, no fix-up needed). -/
def exifInlineInput : List Nat :=
  [0x45, 0x78, 0x69, 0x66, 0x00, 0x00,
   0x49, 0x49, 0x2A, 0x00,
   0x08, 0x00, 0x00, 0x00,
   0x01, 0x00,
   0x11, 0x01, 0x01, 0x00, 0x01, 0x00, 0x00, 0x00, 0x07, 0x00, 0x00, 0x00]

/-- Little-endian payload with two IFD0 entries: a plain offset entry
(format 3, count 5: 10 bytes) and the 0x8769 pointer to a one-entry Exif
SubIFD at stored offset 40 (absolute byte 46). -/
def exifSubIfdInput : List Nat :=
  [0x45, 0x78, 0x69, 0x66, 0x00, 0x00,
   0x49, 0x49, 0x2A, 0x00,
   0x08, 0x00, 0x00, 0x00,
   0x02, 0x00,
   0x11, 0x01, 0x03, 0x00, 0x05, 0x00, 0x00, 0x00, 0x32, 0x00, 0x00, 0x00,
   0x69, 0x87, 0x04, 0x00, 0x01, 0x00, 0x00, 0x00, 0x28, 0x00, 0x00, 0x00,
   0x00, 0x00, 0x00, 0x00, 0x00, 0x00,
   0x01, 0x00,
   0x12, 0x01, 0x03, 0x00, 0x64, 0x00, 0x00, 0x00, 0x64, 0x00, 0x00, 0x00]

/-- The structured entry table of `exifSubIfdInput`. -/
def exifSubItems : List (ExifEntry × Option (List ExifEntry)) :=
  [(⟨0x0111, 3, 5, 50⟩, none),
   (⟨0x8769, 4, 1, 40⟩, some [⟨0x0112, 3, 100, 100⟩])]

/-! ## Lemmas: generic list scanning -/

theorem takeWhile_append_all {p : Char → Bool} {l1 l2 : List Char}
    (h : ∀ c ∈ l1, p c = true) :
    (l1 ++ l2).takeWhile p = l1 ++ l2.takeWhile p := by
  induction l1 with
  | nil => simp
  | cons c cs ih =>
    simp [List.takeWhile_cons, h c (by simp), ih (fun x hx => h x (by simp [hx]))]

theorem dropWhile_append_all {p : Char → Bool} {l1 l2 : List Char}
    (h : ∀ c ∈ l1, p c = true) :
    (l1 ++ l2).dropWhile p = l2.dropWhile p := by
  induction l1 with
  | nil => simp
  | cons c cs ih =>
    simp [List.dropWhile_cons, h c (by simp), ih (fun x hx => h x (by simp [hx]))]

theorem takeWhile_all {p : Char → Bool} {l : List Char}
    (h : ∀ c ∈ l, p c = true) : l.takeWhile p = l := by
  have := @takeWhile_append_all p l [] h
  simpa using this

theorem dropWhile_all {p : Char → Bool} {l : List Char}
    (h : ∀ c ∈ l, p c = true) : l.dropWhile p = [] := by
  have := @dropWhile_append_all p l [] h
  simpa using this

/-! ## Lemmas: decimal rendering round-trips -/

theorem digitChar_toNat {d : Nat} (h : d < 10) : (digitChar d).toNat = 48 + d := by
  interval_cases d <;> rfl

theorem isDigit_digitChar {d : Nat} (h : d < 10) : (digitChar d).isDigit = true := by
  interval_cases d <;> rfl

theorem renderNat_digits (n : Nat) : ∀ c ∈ renderNat n, c.isDigit = true := by
  intro c hc
  unfold renderNat at hc
  split at hc
  · simp only [List.mem_singleton] at hc
    subst hc; rfl
  · simp only [List.mem_map, List.mem_reverse] at hc
    obtain ⟨d, hd, rfl⟩ := hc
    exact isDigit_digitChar (Nat.digits_lt_base (by norm_num) hd)

theorem renderNat_ne_nil (n : Nat) : renderNat n ≠ [] := by
  unfold renderNat
  split
  · simp
  · next h =>
    simp only [ne_eq, List.map_eq_nil_iff, List.reverse_eq_nil_iff]
    exact Nat.digits_ne_nil_iff_ne_zero.mpr h

theorem foldl_digitsVal (ds : List Nat) (a : Nat) :
    ds.foldl (fun acc d => acc * 10 + d) a =
      a * 10 ^ ds.length + Nat.ofDigits 10 ds.reverse := by
  induction ds generalizing a with
  | nil => simp [Nat.ofDigits]
  | cons d ds ih =>
    simp only [List.foldl_cons, ih, List.reverse_cons, Nat.ofDigits_append,
      List.length_cons, List.length_reverse, Nat.ofDigits_cons, Nat.ofDigits_nil]
    ring

/-- `digitsVal` over rendered digits recovers the number. -/
theorem digitsVal_map_digitChar (ds : List Nat) (h : ∀ d ∈ ds, d < 10) :
    digitsVal (ds.map digitChar) = Nat.ofDigits 10 ds.reverse := by
  unfold digitsVal
  have : ∀ a : Nat, (ds.map digitChar).foldl (fun acc c => acc * 10 + (c.toNat - 48)) a
      = ds.foldl (fun acc d => acc * 10 + d) a := by
    induction ds with
    | nil => intro a; rfl
    | cons d ds ih =>
      intro a
      simp only [List.map_cons, List.foldl_cons]
      rw [digitChar_toNat (h d (by simp)), Nat.add_sub_cancel_left]
      exact ih (fun x hx => h x (by simp [hx])) _
  rw [this 0, foldl_digitsVal]
  simp

theorem digitsVal_renderNat (n : Nat) : digitsVal (renderNat n) = n := by
  unfold renderNat
  split
  · subst n; rfl
  · rw [show ((Nat.digits 10 n).reverse.map digitChar)
        = ((Nat.digits 10 n).reverse.map digitChar) from rfl]
    have h10 : ∀ d ∈ (Nat.digits 10 n).reverse, d < 10 := by
      intro d hd
      exact Nat.digits_lt_base (by norm_num) (List.mem_reverse.mp hd)
    rw [digitsVal_map_digitChar _ h10]
    simp [Nat.ofDigits_digits]

theorem digitsVal_replicate_zero (k : Nat) (l : List Char) :
    digitsVal (List.replicate k '0' ++ l) = digitsVal l := by
  induction k with
  | zero => simp
  | succ k ih =>
    simpa [digitsVal, List.replicate_succ] using ih

/-- Digit count bound: `n < 10^e` gives at most `e` digits. -/
theorem digits_len_le {n e : Nat} (h : n < 10 ^ e) :
    (Nat.digits 10 n).length ≤ e := by
  rcases Nat.eq_zero_or_pos n with rfl | hn
  · simp
  · rw [Nat.digits_len 10 n (by norm_num) hn.ne']
    have := Nat.log_lt_of_lt_pow hn.ne' h
    omega

/-- Parsing an all-digit non-empty string as an int yields its value. -/
theorem parseIntPfx_digits {l : List Char} (hne : l ≠ [])
    (hd : ∀ c ∈ l, c.isDigit = true) :
    parseIntPfx l = some (digitsVal l : Int) := by
  cases l with
  | nil => exact absurd rfl hne
  | cons c cs =>
    rw [parseIntPfx.eq_def]
    split
    · rename_i lx rx heqx
      injection heqx with h1 h2
      subst h1
      have := hd '-' (by simp)
      simp [Char.isDigit] at this
    · rw [takeWhile_all hd, if_neg (by simp)]

theorem parseIntPfx_renderInt (i : Int) : parseIntPfx (renderInt i) = some i := by
  unfold renderInt
  split
  · next hneg =>
    rw [parseIntPfx.eq_def]
    split
    · next r heq =>
      obtain rfl : renderNat i.natAbs = r := by
        simpa using heq
      rw [takeWhile_all (renderNat_digits _), if_neg (renderNat_ne_nil _),
        digitsVal_renderNat]
      congr 1
      omega
    · next h =>
      exact absurd rfl (h (renderNat i.natAbs))
  · next hpos =>
    rw [parseIntPfx_digits (renderNat_ne_nil _) (renderNat_digits _),
      digitsVal_renderNat]
    congr 1
    omega

theorem renderNatRaw_digits (n : Nat) : ∀ c ∈ renderNatRaw n, c.isDigit = true := by
  intro c hc
  unfold renderNatRaw at hc
  simp only [List.mem_map, List.mem_reverse] at hc
  obtain ⟨d, hd, rfl⟩ := hc
  exact isDigit_digitChar (Nat.digits_lt_base (by norm_num) hd)

theorem digitsVal_renderNatRaw (n : Nat) : digitsVal (renderNatRaw n) = n := by
  unfold renderNatRaw
  rw [digitsVal_map_digitChar _
    (fun d hd => Nat.digits_lt_base (by norm_num) (List.mem_reverse.mp hd))]
  simp [Nat.ofDigits_digits]

/-- The fractional block of `renderDecBody`: all digits, value, and width. -/
theorem fracBlock_spec (e f : Nat) (hf : f < 10 ^ e) :
    (∀ c ∈ List.replicate (e - (Nat.digits 10 f).length) '0' ++ renderNatRaw f,
      c.isDigit = true) ∧
    digitsVal (List.replicate (e - (Nat.digits 10 f).length) '0' ++
      renderNatRaw f) = f ∧
    (List.replicate (e - (Nat.digits 10 f).length) '0' ++
      renderNatRaw f).length = e := by
  refine ⟨?_, ?_, ?_⟩
  · intro c hc
    rcases List.mem_append.mp hc with h | h
    · rw [List.eq_of_mem_replicate h]; rfl
    · exact renderNatRaw_digits f c h
  · rw [digitsVal_replicate_zero, digitsVal_renderNatRaw]
  · have hlen : (Nat.digits 10 f).length ≤ e := digits_len_le hf
    simp only [List.length_append, List.length_replicate, renderNatRaw,
      List.length_map, List.length_reverse]
    omega

theorem parseDecCore_renderDecBody (neg : Bool) (m e : Nat) :
    parseDecCore neg (renderDecBody m e) = some ⟨neg, m, e⟩ := by
  unfold renderDecBody
  split
  · next he =>
    subst he
    unfold parseDecCore
    rw [takeWhile_all (renderNat_digits m), dropWhile_all (renderNat_digits m)]
    simp only
    rw [if_neg (renderNat_ne_nil m), digitsVal_renderNat]
  · next he =>
    obtain ⟨hdig, hval, hlen⟩ := fracBlock_spec e (m % 10 ^ e)
      (Nat.mod_lt _ (Nat.pos_pow_of_pos e (by norm_num)))
    unfold parseDecCore
    rw [takeWhile_append_all (renderNat_digits _),
      dropWhile_append_all (renderNat_digits _)]
    have hdot : ('.' : Char).isDigit = false := rfl
    simp only [List.takeWhile_cons, List.dropWhile_cons, hdot, Bool.false_eq_true,
      if_false, if_neg]
    rw [takeWhile_all hdig]
    simp only [List.append_nil]
    rw [if_neg (by rintro ⟨h1, _⟩; exact renderNat_ne_nil _ h1)]
    rw [digitsVal_renderNat, hval, hlen]
    congr 2
    rw [Nat.mul_comm]
    exact Nat.div_add_mod m (10 ^ e)

theorem renderDecBody_not_minus (m e : Nat) :
    ∀ r, renderDecBody m e ≠ '-' :: r := by
  intro r hr
  unfold renderDecBody at hr
  split at hr
  · have := renderNat_digits m '-' (by rw [hr]; simp)
    simp [Char.isDigit] at this
  · obtain ⟨c, cs, hcs⟩ :=
      List.exists_cons_of_ne_nil (renderNat_ne_nil (m / 10 ^ e))
    rw [hcs] at hr
    simp only [List.cons_append] at hr
    injection hr with h1 _
    have := renderNat_digits (m / 10 ^ e) c (by rw [hcs]; simp)
    rw [h1] at this
    simp [Char.isDigit] at this

theorem parseDecimalPfx_renderDecimal (d : Decimal) :
    parseDecimalPfx (renderDecimal d) = some d := by
  obtain ⟨neg, m, e⟩ := d
  unfold renderDecimal
  cases neg with
  | true =>
    simp only [if_pos, List.singleton_append]
    rw [parseDecimalPfx.eq_def]
    split
    · next r heq =>
      obtain rfl : renderDecBody m e = r := by simpa using heq
      exact parseDecCore_renderDecBody true m e
    · next h => exact absurd rfl (h (renderDecBody m e))
  | false =>
    simp only [Bool.false_eq_true, if_false, List.nil_append]
    rw [parseDecimalPfx.eq_def]
    split
    · next r heq => exact absurd heq (renderDecBody_not_minus m e r)
    · exact parseDecCore_renderDecBody false m e

/-! ## Lemmas: the writer-call sequence builds `genDoc`, and the handler run -/

/-- `generateXmp` is the serialization of the explicit document tree. -/
theorem generateXmp_eq_serialize (L : Int) (m : jpegr_metadata) :
    generateXmp L m = serializeNode (genDoc L m) := by
  by_cases h : m.transferFunction = JPEGR_TF_PQ <;>
  simp [generateXmp, genDoc, h,
      XmlWriterState.startWritingElement, XmlWriterState.writeXmlns,
      XmlWriterState.writeAttributeNameAndValue, XmlWriterState.writeElementAndContent,
      XmlWriterState.startWritingElements, XmlWriterState.finishWritingElement,
      XmlWriterState.finishWritingElementsToDepth, XmlWriterState.finishWritingElementsToDepth.go,
      XmlWriterState.finishWriting, serializeNode, serializeNodes, serializeAttrs,
      genItem1Attrs, genCoord, genHdr10, Name,
      kContainerPfx, kContainerUri, kConDirectory, kConItem, kConItemLength,
      kConItemMime, kConItemSemantic, kConVersion, kSemanticPrimary,
      kSemanticRecoveryMap, kMimeImageJpeg, kGContainerVersion,
      kRecoveryMapPfx, kRecoveryMapUri, kMapRangeScalingFactor,
      kMapTransferFunction, kMapVersion, kMapHdr10Metadata, kMapHdr10MaxFall,
      kMapHdr10MaxCll, kMapSt2086Metadata, kMapSt2086MaxLum, kMapSt2086MinLum,
      kMapSt2086Primary, kMapSt2086Coordinate, kMapSt2086CoordinateX,
      kMapSt2086CoordinateY, kSt2086PrimaryRed, kSt2086PrimaryGreen,
      kSt2086PrimaryBlue, kSt2086PrimaryWhite]

/-- Running the handler over the generated document's events captures the two
attribute strings of the primary item and finishes in state `Done` (the HDR10
subtree, when present, resets the state, but the second item restores it). -/
theorem runHandler_genDoc (L : Int) (m : jpegr_metadata) :
    runHandler (eventsNode (genDoc L m)) {} =
      { rangeScalingFactorStr := renderDecimal m.rangeScalingFactor,
        transferFunctionStr := renderInt m.transferFunction,
        lastAttributeName := [],
        gContainerItemState := .Done } := by
  by_cases h : m.transferFunction = JPEGR_TF_PQ <;>
  · simp +decide only [genDoc, h, eq_self_iff_true, if_true, if_false,
      genItem1Attrs, genCoord, genHdr10, eventsNode, eventsNodes, attrEvents,
      runHandler, List.foldl, stepEvent, startElementF, finishElementF,
      attributeNameF, attributeValueF, List.cons_append, List.nil_append,
      List.append_assoc]

/-! ## Lemmas: the modelled XML reader inverts the serializer on clean trees -/

theorem parseName_ser {nm : List Char} (h : cleanName nm) (rest : List Char)
    (hrest : ∀ c, rest.head? = some c → isNameChar c = false) :
    parseName (nm ++ rest) = some (nm, rest) := by
  obtain ⟨hne, hchars⟩ := h
  have ht : rest.takeWhile isNameChar = [] := by
    cases rest with
    | nil => rfl
    | cons c cs => simp [List.takeWhile_cons, hrest c rfl]
  have hd : rest.dropWhile isNameChar = rest := by
    cases rest with
    | nil => rfl
    | cons c cs => simp [List.dropWhile_cons, hrest c rfl]
  unfold parseName
  rw [takeWhile_append_all hchars, dropWhile_append_all hchars, ht, hd]
  simp [hne]

theorem attrsClose_head (as : List (List Char × List Char)) (l : List Char)
    (hl : ∀ c, l.head? = some c → isNameChar c = false) :
    ∀ c, (serializeAttrs as ++ l).head? = some c → isNameChar c = false := by
  cases as with
  | nil => simpa [serializeAttrs] using hl
  | cons av rest =>
    obtain ⟨a, v⟩ := av
    intro c hc
    simp only [serializeAttrs, List.cons_append, List.head?_cons,
      Option.some.injEq] at hc
    subst hc
    rfl

theorem parseAttrsP_ser (as : List (List Char × List Char)) :
    ∀ (fuel : Nat) (flag : Bool) (rest : List Char), cleanAttrs as →
      as.length + 1 ≤ fuel →
      parseAttrsP fuel (serializeAttrs as ++
        (if flag then '/' :: '>' :: rest else '>' :: rest)) =
        some (attrEvents as, rest, flag) := by
  induction as with
  | nil =>
    intro fuel flag rest hclean hfuel
    cases fuel with
    | zero => omega
    | succ f =>
      cases flag <;> simp [serializeAttrs, parseAttrsP, attrEvents]
  | cons av as ih =>
    obtain ⟨a, v⟩ := av
    intro fuel flag rest hclean hfuel
    cases fuel with
    | zero => omega
    | succ f =>
      have hav := hclean (a, v) (by simp)
      have has : cleanAttrs as := fun p hp => hclean p (by simp [hp])
      have hvq : ∀ c ∈ v, (fun c => decide ¬(c = '"')) c = true := by
        intro c hc
        simpa using hav.2 c hc
      simp only [serializeAttrs, List.cons_append, List.append_assoc]
      rw [parseAttrsP.eq_def]
      simp only
      rw [parseName_ser hav.1 _ (by intro c hc; simp at hc; subst hc; rfl)]
      simp only [List.cons_append]
      have hfuel2 : as.length + 1 ≤ f := by
        simp only [List.length_cons] at hfuel
        omega
      rw [takeWhile_append_all hvq, dropWhile_append_all hvq]
      simp [List.takeWhile_cons, List.dropWhile_cons,
        ih f flag rest has hfuel2, attrEvents]
/-! ## The round-trip of serialization through the modelled reader -/

theorem sizeNodes_pos (cs : List XmlNode) : 1 ≤ sizeNodes cs := by
  cases cs <;> simp [sizeNodes] <;> omega

theorem serializeNode_elem_shape (n : List Char)
    (a : List (List Char × List Char)) (cs : List XmlNode) :
    ∃ Y, serializeNode (.elem n a cs) = '<' :: (n ++ Y) := by
  refine ⟨serializeAttrs a ++ (if cs.isEmpty then ['/', '>']
    else '>' :: (serializeNodes cs ++ ('<' :: '/' :: (n ++ ['>'])))), ?_⟩
  simp [serializeNode, List.append_assoc]

theorem RT_all : ∀ k : Nat,
    (∀ n attrs cs, 2 + attrs.length + sizeNodes cs ≤ k →
      cleanNode (.elem n attrs cs) →
      ∀ fuel rest, 2 + attrs.length + sizeNodes cs ≤ fuel →
        parseNodeP fuel (serializeNode (.elem n attrs cs) ++ rest) =
          some (eventsNode (.elem n attrs cs), rest)) ∧
    (∀ cs, sizeNodes cs ≤ k → cleanNodes cs →
      ∀ fuel rest, sizeNodes cs ≤ fuel →
        parseContentP fuel (serializeNodes cs ++ '<' :: '/' :: rest) =
          some (eventsNodes cs, '<' :: '/' :: rest)) := by
  intro k
  induction k with
  | zero =>
    constructor
    · intro n attrs cs hk
      omega
    · intro cs hk
      have := sizeNodes_pos cs
      omega
  | succ k ih =>
    obtain ⟨ihN, ihC⟩ := ih
    constructor
    · -- one element
      intro n attrs cs hk hclean fuel rest hfuel
      have hcln : cleanName n ∧ cleanAttrs attrs ∧ cleanNodes cs := by
        simpa [cleanNode] using hclean
      obtain ⟨hn, hattrs, hcs⟩ := hcln
      cases fuel with
      | zero => omega
      | succ f =>
        cases cs with
        | nil =>
          simp only [serializeNode, List.isEmpty_nil, if_true, List.cons_append,
            List.append_assoc]
          rw [parseNodeP.eq_def]
          simp only [List.cons_append, List.append_assoc, List.nil_append]
          rw [parseName_ser hn _ (attrsClose_head attrs _
            (by intro c hc; simp at hc; subst hc; rfl))]
          simp only
          have hps := parseAttrsP_ser attrs f true rest hattrs
            (by simp [sizeNodes] at hfuel; omega)
          simp only [if_true] at hps
          rw [hps]
          simp [eventsNode, eventsNodes]
        | cons c0 cs0 =>
          simp only [serializeNode, List.isEmpty_cons, Bool.false_eq_true, if_false,
            List.cons_append, List.append_assoc, List.nil_append,
            List.singleton_append]
          rw [parseNodeP.eq_def]
          simp only [List.cons_append, List.append_assoc, List.nil_append,
            List.singleton_append, List.isEmpty_cons, Bool.false_eq_true, if_false]
          rw [parseName_ser hn _ (attrsClose_head attrs _
            (by intro c hc; simp at hc; subst hc; rfl))]
          simp only
          have hps := parseAttrsP_ser attrs f false
            (serializeNodes (c0 :: cs0) ++ '<' :: '/' :: (n ++ '>' :: rest)) hattrs
            (by have := sizeNodes_pos (c0 :: cs0); omega)
          simp only [Bool.false_eq_true, if_false, List.append_assoc] at hps
          rw [hps]
          simp only
          rw [ihC (c0 :: cs0) (by omega) hcs f _ (by omega)]
          simp only
          rw [parseName_ser hn _ (by intro c hc; simp at hc; subst hc; rfl)]
          simp [eventsNode, List.append_assoc]
    · -- content lists
      intro cs hk hclean fuel rest hfuel
      cases fuel with
      | zero =>
        have := sizeNodes_pos cs
        omega
      | succ f =>
        cases cs with
        | nil =>
          simp only [serializeNodes, List.nil_append]
          rw [parseContentP.eq_def]
          simp [eventsNodes]
        | cons c0 cs0 =>
          cases c0 with
          | text t =>
            cases cs0 with
            | cons c1 cs1 => simp [cleanNodes] at hclean
            | nil =>
              have hcln : t ≠ [] ∧ ∀ c ∈ t, c ≠ '<' := by
                simpa [cleanNodes] using hclean
              obtain ⟨htne, htlt⟩ := hcln
              obtain ⟨c, t', rfl⟩ := List.exists_cons_of_ne_nil htne
              simp only [serializeNodes, serializeNode, List.append_nil,
                List.cons_append, List.append_assoc]
              rw [parseContentP.eq_def]
              split
              · next heq =>
                injection heq with h1 h2
                exact absurd h1 (htlt c (by simp))
              · next heq =>
                injection heq with h1 h2
                exact absurd h1 (htlt c (by simp))
              · next hfe heq =>
                injection heq with h1 h2
                subst h1
                subst h2
                rename_i q1 q2 fl q3 q4
                obtain rfl : f = fl := Nat.succ_injective hfe
                have hp : ∀ x ∈ c :: t', (fun x => decide (x ≠ '<')) x = true := by
                  intro x hx
                  simpa using htlt x hx
                rw [show (c :: (t' ++ '<' :: '/' :: rest) : List Char)
                    = (c :: t') ++ '<' :: '/' :: rest from rfl,
                  dropWhile_append_all hp]
                have hdw : List.dropWhile (fun x => decide (x ≠ '<'))
                    ('<' :: '/' :: rest) = '<' :: '/' :: rest := by simp
                rw [hdw]
                cases f with
                | zero =>
                  simp [sizeNodes, sizeNode] at hfuel
                | succ f2 =>
                  rw [parseContentP.eq_def]
                  simp [eventsNodes, eventsNode]
              · next h =>
                exact absurd rfl (h f c (t' ++ '<' :: '/' :: rest) rfl)
          | elem n2 a2 ch2 =>
            have hcln : cleanNode (.elem n2 a2 ch2) ∧ cleanNodes cs0 := by
              simpa [cleanNodes] using hclean
            obtain ⟨hc0, hcs0⟩ := hcln
            have hc0x : cleanName n2 ∧ cleanAttrs a2 ∧ cleanNodes ch2 := by
              simpa [cleanNode] using hc0
            obtain ⟨cn, ntail, hn2⟩ := List.exists_cons_of_ne_nil hc0x.1.1
            have hcn : isNameChar cn = true := hc0x.1.2 cn (by rw [hn2]; simp)
            obtain ⟨Y, hY⟩ := serializeNode_elem_shape n2 a2 ch2
            rw [hn2] at hY
            have hser : serializeNodes (XmlNode.elem n2 a2 ch2 :: cs0) ++
                '<' :: '/' :: rest =
                '<' :: cn :: (ntail ++ (Y ++ (serializeNodes cs0 ++ '<' :: '/' :: rest))) := by
              simp only [serializeNodes, hn2, hY, List.cons_append, List.append_assoc]
            rw [hser]
            have hszk : 2 + a2.length + sizeNodes ch2 ≤ k ∧ sizeNodes cs0 ≤ k ∧
                2 + a2.length + sizeNodes ch2 ≤ f ∧ sizeNodes cs0 ≤ f := by
              simp only [sizeNodes, sizeNode] at hk hfuel
              have := sizeNodes_pos cs0
              have := sizeNodes_pos ch2
              omega
            have hback : ('<' :: cn :: (ntail ++ (Y ++ (serializeNodes cs0 ++ '<' :: '/' :: rest))) : List Char) =
                serializeNode (XmlNode.elem n2 a2 ch2) ++
                  (serializeNodes cs0 ++ '<' :: '/' :: rest) := by
              rw [hn2, hY]
              simp [List.cons_append, List.append_assoc]
            rw [parseContentP.eq_def]
            split
            · next heq =>
              injection heq with h1 h2
              injection h2 with h3 h4
              rw [h3] at hcn
              simp [isNameChar] at hcn
            · next hfe heq =>
              injection heq with h1 h2
              subst h2
              rename_i sf sl fl hneg
              obtain rfl : f = fl := Nat.succ_injective hfe
              rw [hback, ihN n2 a2 ch2 hszk.1 hc0 f _ hszk.2.2.1]
              simp only
              rw [ihC cs0 hszk.2.1 hcs0 f _ hszk.2.2.2]
              simp [eventsNodes]
            · next hneg2 hfe heq =>
              injection heq with h1 h2
              exact (hneg2 h1.symm).elim
            · next h =>
              exact absurd rfl (h f '<'
                (cn :: (ntail ++ (Y ++ (serializeNodes cs0 ++ '<' :: '/' :: rest)))) rfl)

/-! ## XMP claim theorems -/

theorem isDigit_ne_quote {c : Char} (h : c.isDigit = true) : c ≠ '"' := by
  intro he
  subst he
  simp [Char.isDigit] at h

theorem isDigit_ne_lt {c : Char} (h : c.isDigit = true) : c ≠ '<' := by
  intro he
  subst he
  simp [Char.isDigit] at h

/-- Every character of a rendered int is a digit or the minus sign. -/
theorem renderInt_chars (i : Int) :
    ∀ c ∈ renderInt i, c.isDigit = true ∨ c = '-' := by
  intro c hc
  unfold renderInt at hc
  split at hc
  · simp only [List.mem_cons] at hc
    rcases hc with h | h
    · right; exact h
    · left; exact renderNat_digits _ c h
  · left; exact renderNat_digits _ c hc


/-- Every character of a rendered decimal is a digit, minus, or point. -/
theorem renderDecimal_chars (d : Decimal) :
    ∀ c ∈ renderDecimal d, c.isDigit = true ∨ c = '-' ∨ c = '.' := by
  intro c hc
  unfold renderDecimal at hc
  rcases List.mem_append.mp hc with h | h
  · split at h
    · simp only [List.mem_singleton] at h
      right; left; exact h
    · simp at h
  · unfold renderDecBody at h
    split at h
    · left; exact renderNat_digits _ c h
    · rcases List.mem_append.mp h with h2 | h2
      · left; exact renderNat_digits _ c h2
      · simp only [List.mem_cons] at h2
        rcases h2 with h3 | h3
        · right; right; exact h3
        · rcases List.mem_append.mp h3 with h4 | h4
          · left
            rw [List.eq_of_mem_replicate h4]
            rfl
          · left; exact renderNatRaw_digits _ c h4

theorem renderDecimal_no_quote (d : Decimal) : ∀ c ∈ renderDecimal d, c ≠ '"' := by
  intro c hc
  rcases renderDecimal_chars d c hc with h | h | h
  · exact isDigit_ne_quote h
  · subst h; decide
  · subst h; decide

theorem renderInt_no_quote (i : Int) : ∀ c ∈ renderInt i, c ≠ '"' := by
  intro c hc
  rcases renderInt_chars i c hc with h | h
  · exact isDigit_ne_quote h
  · subst h; decide

theorem renderNat_no_quote (n : Nat) : ∀ c ∈ renderNat n, c ≠ '"' := by
  intro c hc
  exact isDigit_ne_quote (renderNat_digits n c hc)

theorem renderNat_no_lt (n : Nat) : ∀ c ∈ renderNat n, c ≠ '<' := by
  intro c hc
  exact isDigit_ne_lt (renderNat_digits n c hc)

theorem cleanNode_genDoc (L : Int) (m : jpegr_metadata) :
    cleanNode (genDoc L m) := by
  by_cases h : m.transferFunction = JPEGR_TF_PQ <;>
  · simp only [genDoc, h, eq_self_iff_true, if_true, if_false, cleanNode,
      cleanNodes, cleanName, cleanAttrs, genItem1Attrs, genCoord, genHdr10,
      List.mem_cons, List.mem_singleton, List.not_mem_nil,
      forall_eq_or_imp, forall_eq, false_implies, forall_const, and_true,
      true_and]
    repeat' apply And.intro
    all_goals
      first
      | trivial
      | decide
      | exact renderNat_ne_nil _
      | exact renderNat_no_lt _
      | exact renderNat_no_quote _
      | exact renderInt_no_quote _
      | exact renderDecimal_no_quote _

theorem serializeNode_elem_last (n : List Char)
    (a : List (List Char × List Char)) (cs : List XmlNode) :
    (serializeNode (.elem n a cs)).reverse.head? = some '>' := by
  cases cs <;>
  simp [serializeNode, List.reverse_append, List.reverse_cons]

theorem trimTail_of_last_gt {l : List Char}
    (h : l.reverse.head? = some '>') : trimTail l = l := by
  unfold trimTail
  cases hrev : l.reverse with
  | nil => rw [hrev] at h; simp at h
  | cons c rr =>
    rw [hrev] at h
    simp only [List.head?_cons, Option.some.injEq] at h
    subst h
    have hfix : trimTailRev ('>' :: rr) = '>' :: rr := by
      cases rr with
      | nil => rfl
      | cons c2 rr2 => simp [trimTailRev]
    rw [hfix, ← hrev, List.reverse_reverse]

theorem trimTailRev_cons_ne (c : Char) (rest : List Char) (h1 : rest ≠ [])
    (h2 : c ≠ '>') : trimTailRev (c :: rest) = trimTailRev rest := by
  cases rest with
  | nil => exact absurd rfl h1
  | cons d ds => simp [trimTailRev, h2]

theorem trimTailRev_nuls (k : Nat) (l : List Char) (hl : l ≠ []) :
    trimTailRev (List.replicate k (Char.ofNat 0) ++ l) = trimTailRev l := by
  induction k with
  | zero => simp
  | succ k ih =>
    rw [List.replicate_succ, List.cons_append,
      trimTailRev_cons_ne _ _ (by simp [hl]) (by decide), ih]

theorem genDoc_fuel (L : Int) (m : jpegr_metadata) :
    sizeNode (genDoc L m) ≤ 4 * (serializeNode (genDoc L m)).length + 8 := by
  by_cases h : m.transferFunction = JPEGR_TF_PQ <;>
  · simp [genDoc, h, sizeNode, sizeNodes, serializeNode, serializeNodes,
      serializeAttrs, genItem1Attrs, genCoord, genHdr10,
      List.length_append, List.length_cons]
    omega

/-- `RT_all` specialized to a single element node. -/
theorem RT_node (t : XmlNode) (hclean : cleanNode t)
    (helc : ∃ n a cs, t = XmlNode.elem n a cs) :
    ∀ fuel rest, sizeNode t ≤ fuel →
      parseNodeP fuel (serializeNode t ++ rest) = some (eventsNode t, rest) := by
  obtain ⟨n, a, cs, rfl⟩ := helc
  intro fuel rest hfuel
  exact (RT_all (2 + a.length + sizeNodes cs)).1 n a cs le_rfl hclean fuel rest
    (by simpa [sizeNode] using hfuel)

/-- The modelled reader recovers exactly the generated document's events. -/
theorem tokenize_genDoc (L : Int) (m : jpegr_metadata) :
    tokenize (serializeNode (genDoc L m)) = some (eventsNode (genDoc L m)) := by
  unfold tokenize
  have hrt := RT_node (genDoc L m) (cleanNode_genDoc L m)
    ⟨_, _, _, rfl⟩
    (4 * (serializeNode (genDoc L m)).length + 8) [] (genDoc_fuel L m)
  rw [List.append_nil] at hrt
  rw [hrt]

/-- Full characterization of `getMetadataFromXMP` on a generated packet. -/
theorem getMetadata_gen (L : Int) (m m0 : jpegr_metadata) :
    getMetadataFromXMP (adobeHeader ++ generateXmp L m) m0 =
      (.ok, { m0 with
          rangeScalingFactor := m.rangeScalingFactor
          transferFunction := m.transferFunction }) := by
  rw [generateXmp_eq_serialize]
  have hlast : (serializeNode (genDoc L m)).reverse.head? = some '>' :=
    serializeNode_elem_last _ _ _
  have hgne : serializeNode (genDoc L m) ≠ [] := by
    intro hnil
    rw [hnil] at hlast
    simp at hlast
  have hglen : 1 ≤ (serializeNode (genDoc L m)).length :=
    List.length_pos.mpr hgne
  have h28 : xmpNameSpace.length = 28 := rfl
  have hlen : (adobeHeader ++ serializeNode (genDoc L m)).length =
      29 + (serializeNode (genDoc L m)).length := by
    simp only [adobeHeader, List.length_append, List.length_cons,
      List.length_nil, h28]
  have hdrop : (adobeHeader ++ serializeNode (genDoc L m)).drop
      (xmpNameSpace.length + 1) = serializeNode (genDoc L m) := by
    rw [h28]
    show ((xmpNameSpace ++ [Char.ofNat 0]) ++ _).drop 29 = _
    exact List.drop_left' (by simp [h28])
  have htake : (adobeHeader ++ serializeNode (genDoc L m)).take
      xmpNameSpace.length = xmpNameSpace := by
    rw [h28]
    show ((xmpNameSpace ++ [Char.ofNat 0]) ++ _).take 28 = _
    rw [List.append_assoc]
    exact List.take_left' h28
  unfold getMetadataFromXMP
  rw [if_neg (by rw [hlen, h28]; omega), if_neg (by rw [htake]; simp), hdrop]
  simp only [trimTail_of_last_gt hlast, tokenize_genDoc, runHandler_genDoc,
    getRangeScalingFactor, getTransferFunction, eq_self_iff_true, if_true,
    parseDecimalPfx_renderDecimal, parseIntPfx_renderInt]

/-- Trimming a buffer that contains no `'>'` leaves a single byte. -/
theorem trimTailRev_no_gt (l : List Char) (hl : l ≠ [])
    (h : ∀ c ∈ l, c ≠ '>') : ∃ c, trimTailRev l = [c] ∧ c ∈ l := by
  induction l with
  | nil => exact absurd rfl hl
  | cons c rest ih =>
    cases rest with
    | nil => exact ⟨c, rfl, by simp⟩
    | cons d ds =>
      obtain ⟨c2, hc2, hmem⟩ := ih (by simp) (fun x hx => h x (by simp [hx]))
      refine ⟨c2, ?_, by simp [hmem]⟩
      rw [trimTailRev_cons_ne c (d :: ds) (by simp) (h c (by simp)), hc2]

theorem tokenize_singleton (c : Char) : tokenize [c] = none := by
  unfold tokenize
  have h : parseNodeP (4 * [c].length + 8) [c] = none := by
    rw [parseNodeP.eq_def]
    split
    · next heq =>
      injection heq with h1 h2
      subst h2
      simp [parseName]
    · rfl
  rw [h]

/-- Tail-tolerant characterization: generated packet plus any NUL padding. -/
theorem getMetadata_gen_tail (L : Int) (m m0 : jpegr_metadata) (k : Nat) :
    getMetadataFromXMP (adobeHeader ++ generateXmp L m ++
        List.replicate k (Char.ofNat 0)) m0 =
      (.ok, { m0 with
          rangeScalingFactor := m.rangeScalingFactor
          transferFunction := m.transferFunction }) := by
  rw [generateXmp_eq_serialize]
  have hlast : (serializeNode (genDoc L m)).reverse.head? = some '>' :=
    serializeNode_elem_last _ _ _
  have hgne : serializeNode (genDoc L m) ≠ [] := by
    intro hnil
    rw [hnil] at hlast
    simp at hlast
  obtain ⟨rr, hrr⟩ : ∃ rr, (serializeNode (genDoc L m)).reverse = '>' :: rr := by
    cases hrev : (serializeNode (genDoc L m)).reverse with
    | nil => rw [hrev] at hlast; simp at hlast
    | cons c0 rr0 =>
      rw [hrev] at hlast
      simp only [List.head?_cons, Option.some.injEq] at hlast
      exact ⟨rr0, by rw [hlast]⟩
  have hglen : 1 ≤ (serializeNode (genDoc L m)).length :=
    List.length_pos.mpr hgne
  have h28 : xmpNameSpace.length = 28 := rfl
  have htrim : trimTail (serializeNode (genDoc L m) ++
      List.replicate k (Char.ofNat 0)) = trimTail (serializeNode (genDoc L m)) := by
    unfold trimTail
    rw [List.reverse_append, List.reverse_replicate, trimTailRev_nuls _ _
      (by rw [hrr]; simp)]
  have hlen : (adobeHeader ++ (serializeNode (genDoc L m) ++
      List.replicate k (Char.ofNat 0))).length =
      29 + (serializeNode (genDoc L m)).length + k := by
    simp only [adobeHeader, List.length_append, List.length_cons,
      List.length_nil, List.length_replicate, h28]
    omega
  have hdrop : (adobeHeader ++ (serializeNode (genDoc L m) ++
      List.replicate k (Char.ofNat 0))).drop (xmpNameSpace.length + 1) =
      serializeNode (genDoc L m) ++ List.replicate k (Char.ofNat 0) := by
    rw [h28]
    show ((xmpNameSpace ++ [Char.ofNat 0]) ++ _).drop 29 = _
    exact List.drop_left' (by simp [h28])
  have htake : (adobeHeader ++ (serializeNode (genDoc L m) ++
      List.replicate k (Char.ofNat 0))).take xmpNameSpace.length =
      xmpNameSpace := by
    rw [h28]
    show ((xmpNameSpace ++ [Char.ofNat 0]) ++ _).take 28 = _
    rw [List.append_assoc]
    exact List.take_left' h28
  rw [List.append_assoc]
  unfold getMetadataFromXMP
  rw [if_neg (by rw [hlen, h28]; omega), if_neg (by rw [htake]; simp), hdrop]
  simp only [htrim, trimTail_of_last_gt hlast, tokenize_genDoc, runHandler_genDoc,
    getRangeScalingFactor, getTransferFunction, eq_self_iff_true, if_true,
    parseDecimalPfx_renderDecimal, parseIntPfx_renderInt]

/-- On any failing input, only `rangeScalingFactor` can have been written. -/
theorem getMetadata_fail_frame (bytes : List Char) (m0 : jpegr_metadata) :
    (getMetadataFromXMP bytes m0).2.version = m0.version ∧
    (getMetadataFromXMP bytes m0).2.hdr10Metadata = m0.hdr10Metadata ∧
    ((getMetadataFromXMP bytes m0).1 ≠ .ok →
      (getMetadataFromXMP bytes m0).2.transferFunction = m0.transferFunction) := by
  unfold getMetadataFromXMP
  split
  · simp
  · split
    · simp
    · cases htok : tokenize (trimTail (bytes.drop (xmpNameSpace.length + 1))) with
      | none => simp [htok]
      | some evs =>
        cases hr : getRangeScalingFactor (runHandler evs {}) with
        | none => simp [htok, hr]
        | some rsf =>
          cases ht : getTransferFunction (runHandler evs {}) with
          | none => simp [htok, hr, ht]
          | some tf => simp [htok, hr, ht]

/-- After the namespace check passes, no later step returns `notXmpNamespace`. -/
theorem getMetadata_not_ns (bytes : List Char) (m0 : jpegr_metadata)
    (hlen : ¬ bytes.length < xmpNameSpace.length + 2)
    (htk : ¬ bytes.take xmpNameSpace.length ≠ xmpNameSpace) :
    (getMetadataFromXMP bytes m0).1 ≠ .notXmpNamespace := by
  unfold getMetadataFromXMP
  rw [if_neg hlen, if_neg htk]
  cases htok : tokenize (trimTail (bytes.drop (xmpNameSpace.length + 1))) with
  | none => simp [htok]
  | some evs =>
    cases hr : getRangeScalingFactor (runHandler evs {}) with
    | none => simp [htok, hr]
    | some rsf =>
      cases ht : getTransferFunction (runHandler evs {}) with
      | none => simp [htok, hr, ht]
      | some tf => simp [htok, hr, ht]

/-- C1: for every `RecoveryMetadata` with positive `rangeScalingFactor` and
`transferFunction` in the enum, and every secondary length `L ≥ 0`, parsing
the 29-byte Adobe namespace header concatenated with `generateXmp L m`
succeeds and returns `m`'s `rangeScalingFactor` and `transferFunction`. -/
theorem C1_xmp_roundtrip (m : jpegr_metadata) (L : Int) (m0 : jpegr_metadata)
    (hpos : m.rangeScalingFactor.neg = false ∧ 0 < m.rangeScalingFactor.mant)
    (henum : m.transferFunction = JPEGR_TF_UNSPECIFIED ∨
      m.transferFunction = JPEGR_TF_LINEAR ∨ m.transferFunction = JPEGR_TF_HLG ∨
      m.transferFunction = JPEGR_TF_PQ ∨ m.transferFunction = JPEGR_TF_SRGB)
    (hL : 0 ≤ L) :
    (getMetadataFromXMP (adobeHeader ++ generateXmp L m) m0).1 = .ok ∧
    (getMetadataFromXMP (adobeHeader ++ generateXmp L m) m0).2.rangeScalingFactor
      = m.rangeScalingFactor ∧
    (getMetadataFromXMP (adobeHeader ++ generateXmp L m) m0).2.transferFunction
      = m.transferFunction := by
  rw [getMetadata_gen]
  exact ⟨rfl, rfl, rfl⟩

theorem C1_xmp_roundtrip_witness :
    (getMetadataFromXMP (adobeHeader ++ generateXmp 1234
      { version := 1, rangeScalingFactor := ⟨false, 35, 1⟩,
        transferFunction := 2 }) {}).1 = .ok ∧
    (getMetadataFromXMP (adobeHeader ++ generateXmp 1234
      { version := 1, rangeScalingFactor := ⟨false, 35, 1⟩,
        transferFunction := 2 }) {}).2.rangeScalingFactor = ⟨false, 35, 1⟩ ∧
    (getMetadataFromXMP (adobeHeader ++ generateXmp 1234
      { version := 1, rangeScalingFactor := ⟨false, 35, 1⟩,
        transferFunction := 2 }) {}).2.transferFunction = 2 :=
  C1_xmp_roundtrip
    { version := 1, rangeScalingFactor := ⟨false, 35, 1⟩, transferFunction := 2 }
    1234 {} ⟨rfl, by decide⟩ (by right; right; left; rfl) (by decide)

/-- C6 (counterexample): an input whose first 29 bytes differ from the
NUL-terminated Adobe namespace (its 29th byte is `'X'`) is nevertheless
accepted: the code compares only the first 28 bytes. -/
theorem C6_counterexample :
    (xmpNameSpace ++ 'X' ::
        ("<GContainer:Item RecoveryMap:RangeScalingFactor=\"3.5\" RecoveryMap:TransferFunction=\"2\"/>").toList).take 29
      ≠ adobeHeader ∧
    (getMetadataFromXMP (xmpNameSpace ++ 'X' ::
        ("<GContainer:Item RecoveryMap:RangeScalingFactor=\"3.5\" RecoveryMap:TransferFunction=\"2\"/>").toList)
      {}).1 ≠ .notXmpNamespace := by
  decide

/-- C6 (amended): `getMetadataFromXMP` verifies only the first 28 bytes (the
namespace URI without its trailing NUL); for any input of length ≥ 30 it
fails with `notXmpNamespace` exactly when those 28 bytes differ, and the
29th byte is skipped without being checked. -/
theorem C6_namespace_prefix_check (bytes : List Char) (m0 : jpegr_metadata)
    (hlen : 30 ≤ bytes.length) :
    ((getMetadataFromXMP bytes m0).1 = .notXmpNamespace ↔
      bytes.take 28 ≠ xmpNameSpace) := by
  have h28 : xmpNameSpace.length = 28 := rfl
  have hl : ¬ bytes.length < xmpNameSpace.length + 2 := by rw [h28]; omega
  constructor
  · intro hres
    by_contra hns
    exact getMetadata_not_ns bytes m0 hl
      (by rw [h28]; intro hcon; exact hcon hns) hres
  · intro hns
    unfold getMetadataFromXMP
    rw [if_neg hl, if_pos (by rw [h28]; exact hns)]

theorem C6_namespace_prefix_check_witness :
    (getMetadataFromXMP (List.replicate 30 'Z') {}).1 = .notXmpNamespace ↔
      (List.replicate 30 'Z').take 28 ≠ xmpNameSpace :=
  C6_namespace_prefix_check (List.replicate 30 'Z') {} (by decide)

/-- C7 (counterexample): a successful parse can return a transfer function
outside the enum: the attribute string `"9"` parses and is cast through. -/
theorem C7_counterexample :
    (getMetadataFromXMP (adobeHeader ++
        ("<GContainer:Item RecoveryMap:RangeScalingFactor=\"3.5\" RecoveryMap:TransferFunction=\"9\"/>").toList)
      {}).1 = .ok ∧
    (getMetadataFromXMP (adobeHeader ++
        ("<GContainer:Item RecoveryMap:RangeScalingFactor=\"3.5\" RecoveryMap:TransferFunction=\"9\"/>").toList)
      {}).2.transferFunction = 9 ∧
    ¬((9 : Int) = JPEGR_TF_UNSPECIFIED ∨ (9 : Int) = JPEGR_TF_LINEAR ∨
      (9 : Int) = JPEGR_TF_HLG ∨ (9 : Int) = JPEGR_TF_PQ ∨
      (9 : Int) = JPEGR_TF_SRGB) := by
  decide

/-- C7 (amended): after a successful parse of a generated packet the returned
transfer function is exactly the integer in the attribute — the `int` is cast
to the enum unchecked, so out-of-enum values pass through unchanged. -/
theorem C7_transfer_function_cast (m : jpegr_metadata) (L : Int)
    (m0 : jpegr_metadata) :
    (getMetadataFromXMP (adobeHeader ++ generateXmp L m) m0).1 = .ok ∧
    (getMetadataFromXMP (adobeHeader ++ generateXmp L m) m0).2.transferFunction
      = m.transferFunction := by
  rw [getMetadata_gen]
  exact ⟨rfl, rfl⟩

/-- C8: trailing NUL padding after a generated packet does not change the
parse result (the decoder trims the tail back to the closing `'>'`), and an
input whose XML portion contains no `'>'` at all fails with `xmpMalformed`
(the trim stops at one byte and the XML parse of one byte fails). -/
theorem C8_tail_tolerance :
    (∀ (m : jpegr_metadata) (L : Int) (k : Nat) (m0 : jpegr_metadata),
      getMetadataFromXMP (adobeHeader ++ generateXmp L m ++
        List.replicate k (Char.ofNat 0)) m0 =
      getMetadataFromXMP (adobeHeader ++ generateXmp L m) m0) ∧
    (∀ (bytes : List Char) (m0 : jpegr_metadata), 30 ≤ bytes.length →
      ¬ bytes.take xmpNameSpace.length ≠ xmpNameSpace →
      (∀ c ∈ bytes.drop 29, c ≠ '>') →
      (getMetadataFromXMP bytes m0).1 = .xmpMalformed) := by
  constructor
  · intro m L k m0
    rw [getMetadata_gen_tail, getMetadata_gen]
  · intro bytes m0 hlen htk hngt
    have h28 : xmpNameSpace.length = 28 := rfl
    have hne : bytes.drop 29 ≠ [] := by
      have : (bytes.drop 29).length = bytes.length - 29 := List.length_drop 29 bytes
      intro hnil
      rw [hnil] at this
      simp at this
      omega
    obtain ⟨c, hc, hcm⟩ := trimTailRev_no_gt (bytes.drop 29).reverse
      (by simp [hne]) (fun x hx => hngt x (List.mem_reverse.mp hx))
    unfold getMetadataFromXMP
    rw [if_neg (by rw [h28]; omega), if_neg htk]
    have htr : trimTail (bytes.drop (xmpNameSpace.length + 1)) = [c] := by
      rw [h28]
      show trimTail (bytes.drop 29) = [c]
      unfold trimTail
      rw [hc]
      rfl
    simp [htr, tokenize_singleton]

theorem C8_tail_tolerance_witness :
    getMetadataFromXMP (adobeHeader ++ generateXmp 7 {} ++
        List.replicate 3 (Char.ofNat 0)) {} =
      getMetadataFromXMP (adobeHeader ++ generateXmp 7 {}) {} ∧
    (getMetadataFromXMP (adobeHeader ++ List.replicate 5 'a') {}).1 =
      .xmpMalformed :=
  ⟨C8_tail_tolerance.1 {} 7 3 {},
   C8_tail_tolerance.2 (adobeHeader ++ List.replicate 5 'a') {}
     (by decide) (by decide) (by decide)⟩

/-- C9 (counterexample): when the transfer-function string fails to parse,
`getMetadataFromXMP` fails but has already written `rangeScalingFactor`. -/
theorem C9_counterexample :
    (getMetadataFromXMP (adobeHeader ++
        ("<GContainer:Item RecoveryMap:RangeScalingFactor=\"3.5\" RecoveryMap:TransferFunction=\"x\"/>").toList)
      {}).1 ≠ .ok ∧
    (getMetadataFromXMP (adobeHeader ++
        ("<GContainer:Item RecoveryMap:RangeScalingFactor=\"3.5\" RecoveryMap:TransferFunction=\"x\"/>").toList)
      {}).2.rangeScalingFactor ≠ ({} : jpegr_metadata).rangeScalingFactor := by
  decide

/-- C9 (amended): on any failing parse, every field except possibly
`rangeScalingFactor` is unchanged; `rangeScalingFactor` itself may already
have been overwritten (exactly when the failure is the transfer-function
conversion after a successful range-scaling-factor conversion). -/
theorem C9_failure_partial_write (bytes : List Char) (m0 : jpegr_metadata)
    (h : (getMetadataFromXMP bytes m0).1 ≠ .ok) :
    (getMetadataFromXMP bytes m0).2.version = m0.version ∧
    (getMetadataFromXMP bytes m0).2.hdr10Metadata = m0.hdr10Metadata ∧
    (getMetadataFromXMP bytes m0).2.transferFunction = m0.transferFunction := by
  obtain ⟨h1, h2, h3⟩ := getMetadata_fail_frame bytes m0
  exact ⟨h1, h2, h3 h⟩

theorem C9_failure_partial_write_witness :
    (getMetadataFromXMP ['a'] {}).2.version = ({} : jpegr_metadata).version ∧
    (getMetadataFromXMP ['a'] {}).2.hdr10Metadata =
      ({} : jpegr_metadata).hdr10Metadata ∧
    (getMetadataFromXMP ['a'] {}).2.transferFunction =
      ({} : jpegr_metadata).transferFunction :=
  C9_failure_partial_write ['a'] {} (by decide)

/-- C10: every input shorter than 30 bytes (the namespace length 28 plus 2)
is rejected as too short, without being parsed and without touching the
metadata; in particular the bare 29-byte Adobe header alone is rejected. -/
theorem C10_short_input :
    (∀ (bytes : List Char) (m0 : jpegr_metadata), bytes.length < 30 →
      getMetadataFromXMP bytes m0 = (.shortInput, m0)) ∧
    getMetadataFromXMP adobeHeader {} = (.shortInput, {}) := by
  have h : ∀ (bytes : List Char) (m0 : jpegr_metadata), bytes.length < 30 →
      getMetadataFromXMP bytes m0 = (.shortInput, m0) := by
    intro bytes m0 hlen
    unfold getMetadataFromXMP
    rw [if_pos (by rw [show xmpNameSpace.length = 28 from rfl]; omega)]
  exact ⟨h, h adobeHeader {} (by decide)⟩

theorem C10_short_input_witness :
    getMetadataFromXMP ['h'] {} = (.shortInput, {}) :=
  C10_short_input.1 ['h'] {} (by decide)

/-! ## EXIF byte-level lemmas -/

theorem byteAt_set_ne (data : List Nat) (i j v : Nat) (h : i ≠ j) :
    byteAt (data.set i v) j = byteAt data j := by
  unfold byteAt
  rw [List.getD_eq_getElem?_getD, List.getD_eq_getElem?_getD,
    List.getElem?_set_ne h]

theorem byteAt_set_self (data : List Nat) (i v : Nat) (h : i < data.length) :
    byteAt (data.set i v) i = v % 256 := by
  unfold byteAt
  rw [List.getD_eq_getElem?_getD, List.getElem?_set_self h]
  rfl

theorem length_write32 (data : List Nat) (pos : Nat) (v : Int) (big : Bool) :
    (write32 data pos v big).length = data.length := by
  unfold write32
  cases big <;> simp

theorem byteAt_write32_outside (data : List Nat) (pos : Nat) (v : Int)
    (big : Bool) (i : Nat) (h : i < pos + 8 ∨ pos + 12 ≤ i) :
    byteAt (write32 data pos v big) i = byteAt data i := by
  unfold write32
  cases big <;> simp only [Bool.false_eq_true, if_false, if_true] <;>
    rw [byteAt_set_ne _ _ _ _ (by omega), byteAt_set_ne _ _ _ _ (by omega),
      byteAt_set_ne _ _ _ _ (by omega), byteAt_set_ne _ _ _ _ (by omega)]

theorem decode4_write32 (data : List Nat) (pos : Nat) (v : Int) (big : Bool)
    (h : pos + 11 < data.length) :
    decode4 (write32 data pos v big) (pos + 8) big = (v % 4294967296).toNat := by
  have h0 : 0 ≤ v % 4294967296 := Int.emod_nonneg v (by decide)
  have h1 : v % 4294967296 < 4294967296 := Int.emod_lt_of_pos v (by decide)
  unfold write32 decode4
  cases big
  · simp only [Bool.false_eq_true, if_false]
    rw [show pos + 8 + 1 = pos + 9 by omega, show pos + 8 + 2 = pos + 10 by omega,
      show pos + 8 + 3 = pos + 11 by omega]
    rw [byteAt_set_self _ (pos + 11) _ (by simp; omega)]
    rw [byteAt_set_ne _ (pos + 11) (pos + 10) _ (by omega),
      byteAt_set_self _ (pos + 10) _ (by simp; omega)]
    rw [byteAt_set_ne _ (pos + 11) (pos + 9) _ (by omega),
      byteAt_set_ne _ (pos + 10) (pos + 9) _ (by omega),
      byteAt_set_self _ (pos + 9) _ (by simp; omega)]
    rw [byteAt_set_ne _ (pos + 11) (pos + 8) _ (by omega),
      byteAt_set_ne _ (pos + 10) (pos + 8) _ (by omega),
      byteAt_set_ne _ (pos + 9) (pos + 8) _ (by omega),
      byteAt_set_self _ (pos + 8) _ (by omega)]
    omega
  · simp only [if_true]
    rw [show pos + 8 + 1 = pos + 9 by omega, show pos + 8 + 2 = pos + 10 by omega,
      show pos + 8 + 3 = pos + 11 by omega]
    rw [byteAt_set_self _ (pos + 8) _ (by simp; omega)]
    rw [byteAt_set_ne _ (pos + 8) (pos + 9) _ (by omega),
      byteAt_set_self _ (pos + 9) _ (by simp; omega)]
    rw [byteAt_set_ne _ (pos + 8) (pos + 10) _ (by omega),
      byteAt_set_ne _ (pos + 9) (pos + 10) _ (by omega),
      byteAt_set_self _ (pos + 10) _ (by simp; omega)]
    rw [byteAt_set_ne _ (pos + 8) (pos + 11) _ (by omega),
      byteAt_set_ne _ (pos + 9) (pos + 11) _ (by omega),
      byteAt_set_ne _ (pos + 10) (pos + 11) _ (by omega),
      byteAt_set_self _ (pos + 11) _ (by omega)]
    omega

theorem decode2_congr {d1 d2 : List Nat} {pos : Nat} (big : Bool)
    (h : ∀ i, pos ≤ i → i < pos + 2 → byteAt d1 i = byteAt d2 i) :
    decode2 d1 pos big = decode2 d2 pos big := by
  unfold decode2
  rw [h pos (by omega) (by omega), h (pos + 1) (by omega) (by omega)]

theorem decode4_congr {d1 d2 : List Nat} {pos : Nat} (big : Bool)
    (h : ∀ i, pos ≤ i → i < pos + 4 → byteAt d1 i = byteAt d2 i) :
    decode4 d1 pos big = decode4 d2 pos big := by
  unfold decode4
  rw [h pos (by omega) (by omega), h (pos + 1) (by omega) (by omega),
    h (pos + 2) (by omega) (by omega), h (pos + 3) (by omega) (by omega)]

theorem decodesEntryAt_congr {d1 d2 : List Nat} {pos : Nat} {big : Bool}
    {e : ExifEntry}
    (h : ∀ i, pos ≤ i → i < pos + 12 → byteAt d1 i = byteAt d2 i)
    (hd : decodesEntryAt d2 pos big e) : decodesEntryAt d1 pos big e := by
  obtain ⟨h1, h2, h3, h4⟩ := hd
  refine ⟨?_, ?_, ?_, ?_⟩
  · rw [decode2_congr big (fun i a b => h i (by omega) (by omega))]; exact h1
  · rw [decode2_congr big (fun i a b => h i (by omega) (by omega))]; exact h2
  · rw [decode4_congr big (fun i a b => h i (by omega) (by omega))]; exact h3
  · rw [decode4_congr big (fun i a b => h i (by omega) (by omega))]; exact h4

theorem readValue_two (data : List Nat) (pos : Nat) (big : Bool) :
    readValue data pos 2 big = (decode2 data pos big : Int) := rfl

theorem readValue_four (data : List Nat) (pos : Nat) (big : Bool) :
    readValue data pos 4 big = toInt32 (decode4 data pos big) := by
  unfold readValue
  norm_num

theorem toInt32_of_lt {n : Nat} (h : n < 2147483648) : toInt32 n = (n : Int) := by
  unfold toInt32
  rw [if_pos h]

/-! ## EXIF step equations and region bookkeeping -/

theorem loop_succ_flat (f : Nat) (data : List Nat) (pos n : Nat) (big : Bool)
    (h : readValue data pos 2 big ≠ 0x8769) :
    updateExifOffsetsLoop (f + 1) data pos (n + 1) big =
      updateExifOffsetsLoop f
        (if findFormatLengthInBytes (readValue data (pos + 2) 2 big) *
            readValue data (pos + 4) 4 big > 4
         then write32 data pos (readValue data (pos + 8) 4 big + 12) big
         else data)
        (pos + 12) n big := by
  conv_lhs => rw [updateExifOffsetsLoop]
  simp only [if_neg h, EXIF_J_R_ENTRY_LENGTH]
  norm_num

theorem loop_succ_sub (f : Nat) (data : List Nat) (pos n : Nat) (big : Bool)
    (h : readValue data pos 2 big = 0x8769) :
    updateExifOffsetsLoop (f + 1) data pos (n + 1) big =
      updateExifOffsetsLoop f
        (write32
          (updateExifOffsetsLoop f data
            ((readValue data (pos + 8) 4 big + 18).toNat + 2)
            (readValue data (readValue data (pos + 8) 4 big + 18).toNat 2
              big).toNat big)
          pos
          (readValue
            (updateExifOffsetsLoop f data
              ((readValue data (pos + 8) 4 big + 18).toNat + 2)
              (readValue data (readValue data (pos + 8) 4 big + 18).toNat 2
                big).toNat big)
            (pos + 8) 4 big + 12) big)
        (pos + 12) n big := by
  conv_lhs => rw [updateExifOffsetsLoop]
  simp only [if_pos h, EXIF_J_R_ENTRY_LENGTH]
  norm_num
  rw [show readValue data (pos + 8) 4 big + 6 + 12 =
    readValue data (pos + 8) 4 big + 18 by omega]

theorem subUntouched_nil (i : Nat) : subUntouched [] i := by
  intro j hj
  exact absurd hj (by simp)

theorem subUntouched_of_none
    {items : List (ExifEntry × Option (List ExifEntry))}
    (h : ∀ j (hj : j < items.length), items[j].2 = none) (i : Nat) :
    subUntouched items i := by
  intro j hj fs hfs
  rw [h j hj] at hfs
  exact absurd hfs (by simp)

theorem subUntouched_tail {x : ExifEntry × Option (List ExifEntry)}
    {rest : List (ExifEntry × Option (List ExifEntry))} {i : Nat}
    (h : subUntouched (x :: rest) i) : subUntouched rest i := by
  intro j hj fs hfs
  have := h (j + 1) (by simp; omega) fs (by simpa using hfs)
  simpa using this

/-! ## Arithmetic helpers for patched value fields -/

theorem emod_toNat_add12 (value : Nat) (h : value + 12 < 4294967296) :
    (((value : Int) + 12) % 4294967296).toNat = value + 12 := by omega

theorem toInt32_emod_add12 (value : Nat) (h : value + 12 < 4294967296) :
    ((toInt32 value + 12) % 4294967296).toNat = value + 12 := by
  unfold toInt32
  split <;> omega

/-! ## The offset walk, characterized on a structured entry table.

`items` lists the IFD entries in order; an entry carries `some fs` when it
is the `0x8769` pointer to a SubIFD whose entries are `fs`. The walk starts
at `pos` with the region `[pos, pos + 12·n)` holding the encoded entries,
every SubIFD lying entirely beyond that region, and at most one SubIFD
pointer present (the shape `updateExif` produces). -/

theorem loop_spec : ∀ (fuel : Nat)
    (items : List (ExifEntry × Option (List ExifEntry)))
    (data : List Nat) (pos : Nat) (big : Bool),
    items.length ≤ fuel →
    (∀ j (hj : j < items.length), ∀ fs, items[j].2 = some fs →
      items.length + fs.length + 1 ≤ fuel) →
    pos + 12 * items.length ≤ data.length →
    (∀ j (hj : j < items.length),
      decodesEntryAt data (pos + 12 * j) big (items[j].1)) →
    (∀ j (hj : j < items.length), (items[j].1).value + 12 < 4294967296) →
    (∀ j (hj : j < items.length), items[j].2 = none →
      (items[j].1).tag ≠ 0x8769) →
    (∀ j (hj : j < items.length), ∀ fs, items[j].2 = some fs →
      (items[j].1).tag = 0x8769 ∧ (items[j].1).value < 2147483648 ∧
      decode2 data ((items[j].1).value + 18) big = fs.length ∧
      (∀ k (hk : k < fs.length),
        decodesEntryAt data ((items[j].1).value + 20 + 12 * k) big fs[k]) ∧
      (∀ k (hk : k < fs.length), (fs[k]).tag ≠ 0x8769) ∧
      (∀ k (hk : k < fs.length), (fs[k]).value + 12 < 4294967296) ∧
      pos + 12 * items.length ≤ (items[j].1).value + 18 ∧
      (items[j].1).value + 20 + 12 * fs.length ≤ data.length) →
    (∀ j (hj : j < items.length), ∀ j' (hj' : j' < items.length),
      (items[j].2).isSome = true → (items[j'].2).isSome = true → j = j') →
    (updateExifOffsetsLoop fuel data pos items.length big).length =
        data.length ∧
    (∀ i, i < pos ∨ (pos + 12 * items.length ≤ i ∧ subUntouched items i) →
      byteAt (updateExifOffsetsLoop fuel data pos items.length big) i =
        byteAt data i) ∧
    (∀ j (hj : j < items.length),
      decode4 (updateExifOffsetsLoop fuel data pos items.length big)
          (pos + 12 * j + 8) big =
        if (items[j].1).tag = 0x8769 ∨ needsUpdate (items[j].1)
        then (items[j].1).value + 12 else (items[j].1).value) ∧
    (∀ j (hj : j < items.length), ∀ fs, items[j].2 = some fs →
      ∀ k (hk : k < fs.length),
        decode4 (updateExifOffsetsLoop fuel data pos items.length big)
            ((items[j].1).value + 20 + 12 * k + 8) big =
          if needsUpdate fs[k] then (fs[k]).value + 12 else (fs[k]).value) := by
  intro fuel
  induction fuel with
  | zero =>
    intro items data pos big hfuel _ _ _ _ _ _ _
    have hnil : items = [] := List.length_eq_zero.mp (Nat.le_zero.mp hfuel)
    subst hnil
    refine ⟨rfl, fun i _ => rfl, ?_, ?_⟩
    · intro j hj; simp at hj
    · intro j hj; simp at hj
  | succ f ih =>
    intro items data pos big hfuel hfuelS hbound hdec hval hflat hsub huniq
    cases items with
    | nil =>
      refine ⟨rfl, fun i _ => rfl, ?_, ?_⟩
      · intro j hj; simp at hj
      · intro j hj; simp at hj
    | cons x rest =>
      obtain ⟨e, osub⟩ := x
      simp only [List.length_cons] at hfuel hbound hdec hval hflat ⊢
      simp only [List.length_cons] at hfuelS hsub huniq
      have hd0 := hdec 0 (by omega)
      simp only [List.getElem_cons_zero, Nat.mul_zero, Nat.add_zero] at hd0
      obtain ⟨ht0, hf0, hc0, hv0⟩ := hd0
      have hval0 := hval 0 (by omega)
      simp only [List.getElem_cons_zero] at hval0
      have hposlt : pos + 11 < data.length := by omega
      cases osub with
      | none =>
        have htag0 : e.tag ≠ 0x8769 := by
          have := hflat 0 (by omega) rfl
          simpa using this
        have htagr : readValue data pos 2 big ≠ 0x8769 := by
          rw [readValue_two, ht0]
          intro hcon
          exact htag0 (by exact_mod_cast hcon)
        have hstep := loop_succ_flat f data pos rest.length big htagr
        rw [readValue_two, readValue_four, readValue_four, hf0, hc0, hv0]
          at hstep
        have hcond : (findFormatLengthInBytes (e.format : Int) *
            toInt32 e.count > 4) = needsUpdate e := rfl
        simp only [hcond] at hstep
        have hlen2 : (if needsUpdate e then
            write32 data pos (toInt32 e.value + 12) big else data).length =
            data.length := by
          split
          · exact length_write32 _ _ _ _
          · rfl
        have hfr2 : ∀ i, i < pos + 8 ∨ pos + 12 ≤ i →
            byteAt (if needsUpdate e then
              write32 data pos (toInt32 e.value + 12) big else data) i =
            byteAt data i := by
          intro i hi
          split
          · exact byteAt_write32_outside _ _ _ _ _ hi
          · rfl
        have hv2 : decode4 (if needsUpdate e then
            write32 data pos (toInt32 e.value + 12) big else data)
            (pos + 8) big =
            (if needsUpdate e then e.value + 12 else e.value) := by
          split
          · rw [decode4_write32 _ _ _ _ hposlt, toInt32_emod_add12 _ hval0]
          · exact hv0
        obtain ⟨L2, F2, C2x, D2⟩ := ih rest
          (if needsUpdate e then
            write32 data pos (toInt32 e.value + 12) big else data)
          (pos + 12) big
          (by omega)
          (by
            intro j hj fs hfs
            have := hfuelS (j + 1) (by omega) fs (by simpa using hfs)
            omega)
          (by rw [hlen2]; omega)
          (by
            intro j hj
            have hd := hdec (j + 1) (by omega)
            simp only [List.getElem_cons_succ] at hd
            rw [show pos + 12 * (j + 1) = pos + 12 + 12 * j by omega] at hd
            exact decodesEntryAt_congr
              (fun i hi1 hi2 => hfr2 i (Or.inr (by omega))) hd)
          (by
            intro j hj
            have := hval (j + 1) (by omega)
            simpa using this)
          (by
            intro j hj hn
            have := hflat (j + 1) (by omega) (by simpa using hn)
            simpa using this)
          (by
            intro j hj fs hfs
            have hs := hsub (j + 1) (by omega) fs (by simpa using hfs)
            simp only [List.getElem_cons_succ] at hs
            obtain ⟨ha, hb, hc, hd_, he_, hf_, hg, hh⟩ := hs
            refine ⟨ha, hb, ?_, ?_, he_, hf_, by omega, by rw [hlen2]; exact hh⟩
            · rw [decode2_congr big
                (fun i hi1 hi2 => hfr2 i (Or.inr (by omega)))]
              exact hc
            · intro k hk
              exact decodesEntryAt_congr
                (fun i hi1 hi2 => hfr2 i (Or.inr (by omega))) (hd_ k hk))
          (by
            intro j hj j' hj' hs hs'
            have := huniq (j + 1) (by omega) (j' + 1) (by omega)
              (by simpa using hs) (by simpa using hs')
            omega)
        rw [hstep]
        refine ⟨L2.trans hlen2, ?_, ?_, ?_⟩
        · intro i hi
          rcases hi with hlt | ⟨hge, hsu⟩
          · rw [F2 i (Or.inl (by omega))]
            exact hfr2 i (Or.inl (by omega))
          · rw [F2 i (Or.inr ⟨by omega, subUntouched_tail hsu⟩)]
            exact hfr2 i (Or.inr (by omega))
        · intro j hj
          cases j with
          | zero =>
            simp only [List.getElem_cons_zero, Nat.mul_zero, Nat.add_zero]
            rw [decode4_congr big (fun i hi1 hi2 => F2 i (Or.inl (by omega)))]
            rw [hv2]
            simp [htag0]
          | succ j =>
            simp only [List.getElem_cons_succ]
            have := C2x j (by omega)
            rw [show pos + 12 * (j + 1) + 8 = pos + 12 + 12 * j + 8 by omega]
            exact this
        · intro j hj fs hfs
          cases j with
          | zero => simp at hfs
          | succ j =>
            simp only [List.getElem_cons_succ] at hfs ⊢
            exact D2 j (by omega) fs hfs
      | some fs0 =>
        have hsub0 := hsub 0 (by omega) fs0 rfl
        simp only [List.getElem_cons_zero] at hsub0
        obtain ⟨htag0, hvlt, hcnt, hdecs, htags, hvals, hhi, hbnd⟩ := hsub0
        have htagr : readValue data pos 2 big = 0x8769 := by
          rw [readValue_two, ht0, htag0]
          rfl
        have hstep := loop_succ_sub f data pos rest.length big htagr
        have hrv8 : readValue data (pos + 8) 4 big = (e.value : Int) := by
          rw [readValue_four, hv0, toInt32_of_lt hvlt]
        rw [hrv8] at hstep
        rw [show ((e.value : Int) + 18).toNat = e.value + 18 from by omega]
          at hstep
        rw [show (readValue data (e.value + 18) 2 big).toNat = fs0.length
          from by rw [readValue_two, hcnt]; omega] at hstep
        rw [show e.value + 18 + 2 = e.value + 20 from by omega] at hstep
        obtain ⟨L1, F1, C1s, D1s⟩ := ih (fs0.map (fun y => (y, none)))
          data (e.value + 20) big
          (by
            simp only [List.length_map]
            have := hfuelS 0 (by omega) fs0 rfl
            omega)
          (by
            intro j hj fs hfs
            simp only [List.getElem_map] at hfs
            exact absurd hfs (by simp))
          (by simp only [List.length_map]; omega)
          (by
            intro j hj
            simp only [List.getElem_map]
            exact hdecs j (by simpa using hj))
          (by
            intro j hj
            simp only [List.getElem_map]
            exact hvals j (by simpa using hj))
          (by
            intro j hj _
            simp only [List.getElem_map]
            exact htags j (by simpa using hj))
          (by
            intro j hj fs hfs
            simp only [List.getElem_map] at hfs
            exact absurd hfs (by simp))
          (by
            intro j hj j' hj' hs hs'
            simp only [List.getElem_map] at hs
            simp at hs)
        simp only [List.length_map] at L1 F1 C1s D1s
        have hsuN : ∀ i, subUntouched (fs0.map (fun y => (y, none))) i := by
          intro i j hj fs hfs
          simp only [List.getElem_map] at hfs
          exact absurd hfs (by simp)
        have hrv1 : readValue
            (updateExifOffsetsLoop f data (e.value + 20) fs0.length big)
            (pos + 8) 4 big = (e.value : Int) := by
          rw [readValue_four,
            decode4_congr big (fun i hi1 hi2 => F1 i (Or.inl (by omega))),
            hv0, toInt32_of_lt hvlt]
        rw [hrv1] at hstep
        have hlen1 : (updateExifOffsetsLoop f data (e.value + 20)
            fs0.length big).length = data.length := L1
        have hlen2 : (write32
            (updateExifOffsetsLoop f data (e.value + 20) fs0.length big)
            pos ((e.value : Int) + 12) big).length = data.length := by
          rw [length_write32]
          exact hlen1
        have hfr2 : ∀ i, i < pos + 8 ∨ pos + 12 ≤ i →
            byteAt (write32
              (updateExifOffsetsLoop f data (e.value + 20) fs0.length big)
              pos ((e.value : Int) + 12) big) i =
            byteAt (updateExifOffsetsLoop f data (e.value + 20)
              fs0.length big) i := by
          intro i hi
          exact byteAt_write32_outside _ _ _ _ _ hi
        have hv2 : decode4 (write32
            (updateExifOffsetsLoop f data (e.value + 20) fs0.length big)
            pos ((e.value : Int) + 12) big) (pos + 8) big =
            e.value + 12 := by
          rw [decode4_write32 _ _ _ _ (by rw [hlen1]; omega)]
          exact emod_toNat_add12 _ hval0
        have hnone_rest : ∀ j (hj : j < rest.length), rest[j].2 = none := by
          intro j hj
          by_contra hne
          have hs : (rest[j].2).isSome = true :=
            Option.ne_none_iff_isSome.mp hne
          have := huniq 0 (by omega) (j + 1) (by omega)
            (by simp) (by simpa using hs)
          omega
        obtain ⟨L2, F2, C2x, D2⟩ := ih rest
          (write32 (updateExifOffsetsLoop f data (e.value + 20)
            fs0.length big) pos ((e.value : Int) + 12) big)
          (pos + 12) big
          (by omega)
          (by
            intro j hj fs hfs
            rw [hnone_rest j hj] at hfs
            exact absurd hfs (by simp))
          (by rw [hlen2]; omega)
          (by
            intro j hj
            have hd := hdec (j + 1) (by omega)
            simp only [List.getElem_cons_succ] at hd
            rw [show pos + 12 * (j + 1) = pos + 12 + 12 * j by omega] at hd
            exact decodesEntryAt_congr
              (fun i hi1 hi2 =>
                (hfr2 i (Or.inr (by omega))).trans
                  (F1 i (Or.inl (by omega)))) hd)
          (by
            intro j hj
            have := hval (j + 1) (by omega)
            simpa using this)
          (by
            intro j hj hn
            have := hflat (j + 1) (by omega) (by simpa using hn)
            simpa using this)
          (by
            intro j hj fs hfs
            rw [hnone_rest j hj] at hfs
            exact absurd hfs (by simp))
          (by
            intro j hj j' hj' hs hs'
            rw [hnone_rest j hj] at hs
            simp at hs)
        rw [hstep]
        refine ⟨L2.trans hlen2, ?_, ?_, ?_⟩
        · intro i hi
          rcases hi with hlt | ⟨hge, hsu⟩
          · rw [F2 i (Or.inl (by omega))]
            rw [hfr2 i (Or.inl (by omega))]
            exact F1 i (Or.inl (by omega))
          · have hsu0 := hsu 0 (by simp) fs0 rfl
            simp only [List.getElem_cons_zero] at hsu0
            rw [F2 i (Or.inr ⟨by omega, subUntouched_tail hsu⟩)]
            rw [hfr2 i (Or.inr (by omega))]
            rcases hsu0 with hL | hR
            · exact F1 i (Or.inl (by omega))
            · exact F1 i (Or.inr ⟨by omega, hsuN i⟩)
        · intro j hj
          cases j with
          | zero =>
            simp only [List.getElem_cons_zero, Nat.mul_zero, Nat.add_zero]
            rw [decode4_congr big (fun i hi1 hi2 => F2 i (Or.inl (by omega)))]
            rw [hv2]
            simp [htag0]
          | succ j =>
            simp only [List.getElem_cons_succ]
            have := C2x j (by omega)
            rw [show pos + 12 * (j + 1) + 8 = pos + 12 + 12 * j + 8 by omega]
            exact this
        · intro j hj fs hfs
          cases j with
          | zero =>
            simp only [List.getElem_cons_zero, Option.some.injEq] at hfs
            subst hfs
            intro k hk
            simp only [List.getElem_cons_zero]
            rw [decode4_congr big
              (fun i hi1 hi2 =>
                (F2 i (Or.inr ⟨by omega,
                  subUntouched_of_none hnone_rest i⟩)).trans
                  (hfr2 i (Or.inr (by omega))))]
            have := C1s k hk
            simp only [List.getElem_map] at this
            rw [this]
            simp [htags k hk]
          | succ j =>
            simp only [List.getElem_cons_succ] at hfs ⊢
            rw [hnone_rest j (by omega)] at hfs
            exact absurd hfs (by simp)

/-! ## The walk is the identity when nothing needs fixing up -/

theorem loop_id : ∀ (n fuel : Nat) (data : List Nat) (pos : Nat) (big : Bool),
    n ≤ fuel →
    (∀ j (hj : j < n), readValue data (pos + 12 * j) 2 big ≠ 0x8769 ∧
      ¬(findFormatLengthInBytes (readValue data (pos + 12 * j + 2) 2 big) *
        readValue data (pos + 12 * j + 4) 4 big > 4)) →
    updateExifOffsetsLoop fuel data pos n big = data := by
  intro n
  induction n with
  | zero =>
    intro fuel data pos big _ _
    cases fuel <;> rfl
  | succ m ihm =>
    intro fuel data pos big hfuel hcond
    cases fuel with
    | zero => omega
    | succ f =>
      have h0 := hcond 0 (by omega)
      simp only [Nat.mul_zero, Nat.add_zero] at h0
      rw [loop_succ_flat f data pos m big h0.1]
      rw [if_neg h0.2]
      apply ihm f data (pos + 12) big (by omega)
      intro j hj
      have := hcond (j + 1) (by omega)
      rw [show pos + 12 * (j + 1) = pos + 12 + 12 * j by omega] at this
      exact this

/-! ## `updateExif` on a well-formed header, as a single loop call -/

theorem jrEntry_length (big : Bool) : (jrEntry big).length = 12 := by
  cases big <;> rfl

theorem countB_length (d : List Nat) (big : Bool) : (countB d big).length = 2 := by
  unfold countB
  split <;> rfl

theorem updateExif_eq (d : List Nat) (big : Bool)
    (hend : (big = false ∧ byteAt d 6 = 0x49 ∧ byteAt d 7 = 0x49) ∨
      (big = true ∧ byteAt d 6 = 0x4d ∧ byteAt d 7 = 0x4d)) :
    updateExif (some d) = (.NO_ERROR,
      updateExifOffsetsLoop
        (d.take 14 ++ countB d big ++ jrEntry big ++ d.drop 16).length
        (d.take 14 ++ countB d big ++ jrEntry big ++ d.drop 16)
        28 (decode2 d 14 big) big) := by
  rcases hend with ⟨hb, h6, h7⟩ | ⟨hb, h6, h7⟩ <;> subst hb <;>
    simp only [updateExif, countB, decode2, h6, h7] <;> norm_num

theorem dest_length (d : List Nat) (big : Bool) (h : 16 ≤ d.length) :
    (d.take 14 ++ countB d big ++ jrEntry big ++ d.drop 16).length =
      d.length + 12 := by
  simp [List.length_append, List.length_take, List.length_drop,
    jrEntry_length, countB_length]
  omega

theorem byteAt_dest_shift (d : List Nat) (big : Bool) (h : 16 ≤ d.length)
    (i : Nat) (hi : 16 ≤ i) :
    byteAt (d.take 14 ++ countB d big ++ jrEntry big ++ d.drop 16) (i + 12) =
      byteAt d i := by
  have hA : (d.take 14).length = 14 := by rw [List.length_take]; omega
  have hB : (countB d big).length = 2 := countB_length d big
  have hC : (jrEntry big).length = 12 := jrEntry_length big
  unfold byteAt
  rw [List.getD_eq_getElem?_getD, List.getD_eq_getElem?_getD]
  rw [List.append_assoc, List.append_assoc]
  rw [List.getElem?_append_right (by omega)]
  rw [List.getElem?_append_right (by omega)]
  rw [List.getElem?_append_right (by omega)]
  rw [List.getElem?_drop]
  rw [show 16 + (i + 12 - (d.take 14).length - (countB d big).length -
    (jrEntry big).length) = i from by rw [hA, hB, hC]; omega]

theorem decode2_dest_shift (d : List Nat) (big : Bool) (h : 16 ≤ d.length)
    (p : Nat) (hp : 16 ≤ p) :
    decode2 (d.take 14 ++ countB d big ++ jrEntry big ++ d.drop 16)
      (p + 12) big = decode2 d p big := by
  unfold decode2
  rw [byteAt_dest_shift d big h p hp,
    show p + 12 + 1 = (p + 1) + 12 from by omega,
    byteAt_dest_shift d big h (p + 1) (by omega)]

theorem decode4_dest_shift (d : List Nat) (big : Bool) (h : 16 ≤ d.length)
    (p : Nat) (hp : 16 ≤ p) :
    decode4 (d.take 14 ++ countB d big ++ jrEntry big ++ d.drop 16)
      (p + 12) big = decode4 d p big := by
  unfold decode4
  rw [byteAt_dest_shift d big h p hp,
    show p + 12 + 1 = (p + 1) + 12 from by omega,
    byteAt_dest_shift d big h (p + 1) (by omega),
    show p + 12 + 2 = (p + 2) + 12 from by omega,
    byteAt_dest_shift d big h (p + 2) (by omega),
    show p + 12 + 3 = (p + 3) + 12 from by omega,
    byteAt_dest_shift d big h (p + 3) (by omega)]

theorem decodesEntryAt_dest_shift (d : List Nat) (big : Bool)
    (h : 16 ≤ d.length) (p : Nat) (hp : 16 ≤ p) (e : ExifEntry)
    (hd : decodesEntryAt d p big e) :
    decodesEntryAt (d.take 14 ++ countB d big ++ jrEntry big ++ d.drop 16)
      (p + 12) big e := by
  obtain ⟨h1, h2, h3, h4⟩ := hd
  refine ⟨?_, ?_, ?_, ?_⟩
  · rw [decode2_dest_shift d big h p hp]; exact h1
  · rw [show p + 12 + 2 = (p + 2) + 12 from by omega,
      decode2_dest_shift d big h (p + 2) (by omega)]; exact h2
  · rw [show p + 12 + 4 = (p + 4) + 12 from by omega,
      decode4_dest_shift d big h (p + 4) (by omega)]; exact h3
  · rw [show p + 12 + 8 = (p + 8) + 12 from by omega,
      decode4_dest_shift d big h (p + 8) (by omega)]; exact h4

/-! ## `updateExif` end-to-end: the offset walk on a structured table.

Positions are stated on the ORIGINAL payload `d`: IFD0 entries at
`16 + 12·j`, a SubIFD's count at `storedOffset + 6` and its entries at
`storedOffset + 8 + 12·k` (offsets are TIFF-relative, the TIFF header
starting at byte 6). -/

theorem updateExif_walk_spec (d : List Nat)
    (items : List (ExifEntry × Option (List ExifEntry))) (big : Bool)
    (hend : (big = false ∧ byteAt d 6 = 0x49 ∧ byteAt d 7 = 0x49) ∨
      (big = true ∧ byteAt d 6 = 0x4d ∧ byteAt d 7 = 0x4d))
    (hcount : decode2 d 14 big = items.length)
    (hreg : 16 + 12 * items.length ≤ d.length)
    (hdec : ∀ j (hj : j < items.length),
      decodesEntryAt d (16 + 12 * j) big (items[j].1))
    (hval : ∀ j (hj : j < items.length), (items[j].1).value + 12 < 4294967296)
    (hflat : ∀ j (hj : j < items.length), items[j].2 = none →
      (items[j].1).tag ≠ 0x8769)
    (hsub : ∀ j (hj : j < items.length), ∀ fs, items[j].2 = some fs →
      (items[j].1).tag = 0x8769 ∧ (items[j].1).value < 2147483648 ∧
      decode2 d ((items[j].1).value + 6) big = fs.length ∧
      (∀ k (hk : k < fs.length),
        decodesEntryAt d ((items[j].1).value + 8 + 12 * k) big fs[k]) ∧
      (∀ k (hk : k < fs.length), (fs[k]).tag ≠ 0x8769) ∧
      (∀ k (hk : k < fs.length), (fs[k]).value + 12 < 4294967296) ∧
      16 + 12 * items.length ≤ (items[j].1).value + 6 ∧
      (items[j].1).value + 8 + 12 * fs.length ≤ d.length)
    (huniq : ∀ j (hj : j < items.length), ∀ j' (hj' : j' < items.length),
      (items[j].2).isSome = true → (items[j'].2).isSome = true → j = j') :
    (updateExif (some d)).1 = .NO_ERROR ∧
    (updateExif (some d)).2.length = d.length + 12 ∧
    (∀ j (hj : j < items.length),
      decode4 (updateExif (some d)).2 (28 + 12 * j + 8) big =
        if (items[j].1).tag = 0x8769 ∨ needsUpdate (items[j].1)
        then (items[j].1).value + 12 else (items[j].1).value) ∧
    (∀ j (hj : j < items.length), ∀ fs, items[j].2 = some fs →
      ∀ k (hk : k < fs.length),
        decode4 (updateExif (some d)).2
            ((items[j].1).value + 6 + 12 + 2 + 12 * k + 8) big =
          if needsUpdate fs[k] then (fs[k]).value + 12 else (fs[k]).value) := by
  have h16 : 16 ≤ d.length := by omega
  have hdl : (d.take 14 ++ countB d big ++ jrEntry big ++ d.drop 16).length =
      d.length + 12 := dest_length d big h16
  obtain ⟨L, F, C, D⟩ := loop_spec
    (d.take 14 ++ countB d big ++ jrEntry big ++ d.drop 16).length items
    (d.take 14 ++ countB d big ++ jrEntry big ++ d.drop 16) 28 big
    (by omega)
    (by
      intro j hj fs hfs
      obtain ⟨_, _, _, _, _, _, hg, hh⟩ := hsub j hj fs hfs
      omega)
    (by omega)
    (by
      intro j hj
      rw [show 28 + 12 * j = (16 + 12 * j) + 12 from by omega]
      exact decodesEntryAt_dest_shift d big h16 _ (by omega) _ (hdec j hj))
    hval
    hflat
    (by
      intro j hj fs hfs
      obtain ⟨ha, hb, hc, hd_, he_, hf_, hg, hh⟩ := hsub j hj fs hfs
      refine ⟨ha, hb, ?_, ?_, he_, hf_, by omega, by rw [hdl]; omega⟩
      · rw [show (items[j].1).value + 18 = ((items[j].1).value + 6) + 12
          from by omega]
        rw [decode2_dest_shift d big h16 _ (by omega)]
        exact hc
      · intro k hk
        rw [show (items[j].1).value + 20 + 12 * k =
          ((items[j].1).value + 8 + 12 * k) + 12 from by omega]
        exact decodesEntryAt_dest_shift d big h16 _ (by omega) _ (hd_ k hk))
    huniq
  rw [updateExif_eq d big hend, hcount]
  refine ⟨rfl, ?_, ?_, ?_⟩
  · exact L.trans hdl
  · exact C
  · intro j hj fs hfs k hk
    rw [show (items[j].1).value + 6 + 12 + 2 + 12 * k + 8 =
      (items[j].1).value + 20 + 12 * k + 8 from by omega]
    exact D j hj fs hfs k hk

/-! ## Count bytes of the patched destination -/

theorem decode2_dest_count (d : List Nat) (big : Bool) (h : 16 ≤ d.length)
    (hlt : decode2 d 14 big + 1 < 65536) :
    decode2 (d.take 14 ++ countB d big ++ jrEntry big ++ d.drop 16) 14 big =
      decode2 d 14 big + 1 := by
  have hA : (d.take 14).length = 14 := by rw [List.length_take]; omega
  have hb14 : byteAt (d.take 14 ++ countB d big ++ jrEntry big ++ d.drop 16)
      14 = (countB d big).getD 0 0 % 256 := by
    unfold byteAt
    rw [List.append_assoc, List.append_assoc]
    rw [List.getD_eq_getElem?_getD, List.getElem?_append_right (by omega)]
    rw [show 14 - (d.take 14).length = 0 from by omega]
    cases big <;> simp [countB]
  have hb15 : byteAt (d.take 14 ++ countB d big ++ jrEntry big ++ d.drop 16)
      15 = (countB d big).getD 1 0 % 256 := by
    unfold byteAt
    rw [List.append_assoc, List.append_assoc]
    rw [List.getD_eq_getElem?_getD, List.getElem?_append_right (by omega)]
    rw [show 15 - (d.take 14).length = 1 from by omega]
    cases big <;> simp [countB]
  cases big
  · rw [show decode2 (d.take 14 ++ countB d false ++ jrEntry false ++
        d.drop 16) 14 false =
      byteAt (d.take 14 ++ countB d false ++ jrEntry false ++ d.drop 16)
        15 * 256 +
      byteAt (d.take 14 ++ countB d false ++ jrEntry false ++ d.drop 16) 14
      from by unfold decode2; norm_num]
    rw [hb14, hb15]
    unfold countB
    norm_num
    omega
  · rw [show decode2 (d.take 14 ++ countB d true ++ jrEntry true ++
        d.drop 16) 14 true =
      byteAt (d.take 14 ++ countB d true ++ jrEntry true ++ d.drop 16)
        14 * 256 +
      byteAt (d.take 14 ++ countB d true ++ jrEntry true ++ d.drop 16) 15
      from by unfold decode2; norm_num]
    rw [hb14, hb15]
    unfold countB
    norm_num
    omega

/-! ## `updateExif` when no entry needs fixing up: the exact output layout -/

theorem updateExif_layout (d : List Nat) (items : List ExifEntry) (big : Bool)
    (hend : (big = false ∧ byteAt d 6 = 0x49 ∧ byteAt d 7 = 0x49) ∨
      (big = true ∧ byteAt d 6 = 0x4d ∧ byteAt d 7 = 0x4d))
    (hcount : decode2 d 14 big = items.length)
    (hcountlt : items.length < 65535)
    (hreg : 16 + 12 * items.length ≤ d.length)
    (hdec : ∀ j (hj : j < items.length),
      decodesEntryAt d (16 + 12 * j) big items[j])
    (htag : ∀ j (hj : j < items.length), items[j].tag ≠ 0x8769)
    (hnu : ∀ j (hj : j < items.length), ¬ needsUpdate items[j]) :
    (updateExif (some d)).1 = .NO_ERROR ∧
    (updateExif (some d)).2.take 14 = d.take 14 ∧
    decode2 (updateExif (some d)).2 14 big = decode2 d 14 big + 1 ∧
    ((updateExif (some d)).2.drop 16).take 12 = jrEntry big ∧
    (updateExif (some d)).2.drop 28 = d.drop 16 := by
  have h16 : 16 ≤ d.length := by omega
  have hA : (d.take 14).length = 14 := by rw [List.length_take]; omega
  have hdl := dest_length d big h16
  have hid : updateExifOffsetsLoop
      (d.take 14 ++ countB d big ++ jrEntry big ++ d.drop 16).length
      (d.take 14 ++ countB d big ++ jrEntry big ++ d.drop 16)
      28 items.length big =
      d.take 14 ++ countB d big ++ jrEntry big ++ d.drop 16 := by
    apply loop_id items.length _ _ 28 big (by omega)
    intro j hj
    have hd := hdec j hj
    have hds := decodesEntryAt_dest_shift d big h16 _
      (by omega : 16 ≤ 16 + 12 * j) _ hd
    rw [show 16 + 12 * j + 12 = 28 + 12 * j from by omega] at hds
    obtain ⟨h1, h2, h3, h4⟩ := hds
    constructor
    · rw [readValue_two, h1]
      intro hcon
      exact htag j hj (by exact_mod_cast hcon)
    · rw [readValue_two, readValue_four, h2, h3]
      exact hnu j hj
  rw [updateExif_eq d big hend, hcount, hid]
  refine ⟨rfl, ?_, ?_, ?_, ?_⟩
  · rw [List.append_assoc, List.append_assoc]
    exact List.take_left' hA
  · exact (decode2_dest_count d big h16 (by omega)).trans (by rw [hcount])
  · rw [show d.take 14 ++ countB d big ++ jrEntry big ++ d.drop 16 =
      (d.take 14 ++ countB d big) ++ (jrEntry big ++ d.drop 16) from by
        simp [List.append_assoc]]
    rw [List.drop_left' (by rw [List.length_append, hA, countB_length])]
    exact List.take_left' (jrEntry_length big)
  · rw [List.drop_left' (by
      rw [List.length_append, List.length_append, hA, countB_length,
        jrEntry_length])]

/-! ## EXIF claim theorems -/

/-- C2: after a successful `updateExif` (the model of `patchExif`) on a
non-null EXIF payload, every IFD0 and SubIFD entry whose value field is an
offset — its tag is 0x8769, or `findFormatLengthInBytes(format) · count`
exceeds the 4 inline bytes (`needsUpdate`) — holds, at its shifted output
position, a value exactly 12 greater than in the original; inline entries
are left unchanged. The walk recurses into the SubIFD at absolute output
position storedOffset + 6 + 12, reads the 2-byte entry count stored there,
and walks that many SubIFD entries. -/
theorem C2_offsets_plus_twelve (d : List Nat)
    (items : List (ExifEntry × Option (List ExifEntry))) (big : Bool)
    (hend : (big = false ∧ byteAt d 6 = 0x49 ∧ byteAt d 7 = 0x49) ∨
      (big = true ∧ byteAt d 6 = 0x4d ∧ byteAt d 7 = 0x4d))
    (hcount : decode2 d 14 big = items.length)
    (hreg : 16 + 12 * items.length ≤ d.length)
    (hdec : ∀ j (hj : j < items.length),
      decodesEntryAt d (16 + 12 * j) big (items[j].1))
    (hval : ∀ j (hj : j < items.length), (items[j].1).value + 12 < 4294967296)
    (hflat : ∀ j (hj : j < items.length), items[j].2 = none →
      (items[j].1).tag ≠ 0x8769)
    (hsub : ∀ j (hj : j < items.length), ∀ fs, items[j].2 = some fs →
      (items[j].1).tag = 0x8769 ∧ (items[j].1).value < 2147483648 ∧
      decode2 d ((items[j].1).value + 6) big = fs.length ∧
      (∀ k (hk : k < fs.length),
        decodesEntryAt d ((items[j].1).value + 8 + 12 * k) big fs[k]) ∧
      (∀ k (hk : k < fs.length), (fs[k]).tag ≠ 0x8769) ∧
      (∀ k (hk : k < fs.length), (fs[k]).value + 12 < 4294967296) ∧
      16 + 12 * items.length ≤ (items[j].1).value + 6 ∧
      (items[j].1).value + 8 + 12 * fs.length ≤ d.length)
    (huniq : ∀ j (hj : j < items.length), ∀ j' (hj' : j' < items.length),
      (items[j].2).isSome = true → (items[j'].2).isSome = true → j = j') :
    (updateExif (some d)).1 = .NO_ERROR ∧
    (∀ j (hj : j < items.length),
      decode4 (updateExif (some d)).2 (28 + 12 * j + 8) big =
        if (items[j].1).tag = 0x8769 ∨ needsUpdate (items[j].1)
        then (items[j].1).value + 12 else (items[j].1).value) ∧
    (∀ j (hj : j < items.length), ∀ fs, items[j].2 = some fs →
      ∀ k (hk : k < fs.length),
        decode4 (updateExif (some d)).2
            ((items[j].1).value + 6 + 12 + 2 + 12 * k + 8) big =
          if needsUpdate fs[k] then (fs[k]).value + 12 else (fs[k]).value) := by
  obtain ⟨h1, _, h3, h4⟩ := updateExif_walk_spec d items big hend hcount hreg
    hdec hval hflat hsub huniq
  exact ⟨h1, h3, h4⟩

theorem C2_offsets_plus_twelve_witness :
    (updateExif (some exifSubIfdInput)).1 = .NO_ERROR ∧
    (∀ j (hj : j < exifSubItems.length),
      decode4 (updateExif (some exifSubIfdInput)).2 (28 + 12 * j + 8) false =
        if (exifSubItems[j].1).tag = 0x8769 ∨ needsUpdate (exifSubItems[j].1)
        then (exifSubItems[j].1).value + 12 else (exifSubItems[j].1).value) ∧
    (∀ j (hj : j < exifSubItems.length), ∀ fs, exifSubItems[j].2 = some fs →
      ∀ k (hk : k < fs.length),
        decode4 (updateExif (some exifSubIfdInput)).2
            ((exifSubItems[j].1).value + 6 + 12 + 2 + 12 * k + 8) false =
          if needsUpdate fs[k] then (fs[k]).value + 12
          else (fs[k]).value) :=
  C2_offsets_plus_twelve exifSubIfdInput exifSubItems false
    (by decide) (by decide) (by decide) (by decide) (by decide) (by decide)
    (by decide) (by decide)

/-- C3: contrary to the claim, no capacity ever triggers `BufferTooSmall`:
the `jr_exif` overload of `Write` copies unconditionally and always returns
`NO_ERROR`; `updateExif(null)` emits the 28-byte pseudo package with
`NO_ERROR`, and no input whatsoever makes `updateExif` return
`ERROR_JPEGR_BUFFER_TOO_SMALL`. -/
theorem C3_buffer_too_small_never :
    (∀ destination source : List Nat,
      (Write destination source).1 = .NO_ERROR) ∧
    updateExif none = (.NO_ERROR, pseudoExifPackage) ∧
    pseudoExifPackage.length = 28 ∧
    (∀ exif : Option (List Nat),
      (updateExif exif).1 ≠ .ERROR_JPEGR_BUFFER_TOO_SMALL) := by
  refine ⟨fun _ _ => rfl, rfl, rfl, ?_⟩
  intro exif
  cases exif with
  | none => simp [updateExif, Write]
  | some d =>
    simp only [updateExif]
    split
    · simp
    · simp

/-- C4 counterexample: on a payload whose single entry needs fix-up, the
patch succeeds (and the head is copied) but the bytes from 28 onward are
NOT a verbatim copy of the input's bytes from 16 onward: the walk has
rewritten the entry's value field in place. -/
theorem C4_counterexample :
    (updateExif (some exifOffsetInput)).1 = .NO_ERROR ∧
    (updateExif (some exifOffsetInput)).2.take 14 = exifOffsetInput.take 14 ∧
    (updateExif (some exifOffsetInput)).2.drop 28 ≠
      exifOffsetInput.drop 16 := by decide

/-- C4 (amended): when no IFD0 entry is the 0x8769 pointer and none needs
fix-up, the output is exactly the claimed layout: bytes [0,14) copy the
input, bytes [14,16) hold the original entry count plus one in the detected
endianness, bytes [16,28) hold the inserted JR entry, and bytes from 28
onward copy the input from byte 16 onward. -/
theorem C4_exact_layout (d : List Nat) (items : List ExifEntry) (big : Bool)
    (hend : (big = false ∧ byteAt d 6 = 0x49 ∧ byteAt d 7 = 0x49) ∨
      (big = true ∧ byteAt d 6 = 0x4d ∧ byteAt d 7 = 0x4d))
    (hcount : decode2 d 14 big = items.length)
    (hcountlt : items.length < 65535)
    (hreg : 16 + 12 * items.length ≤ d.length)
    (hdec : ∀ j (hj : j < items.length),
      decodesEntryAt d (16 + 12 * j) big items[j])
    (htag : ∀ j (hj : j < items.length), items[j].tag ≠ 0x8769)
    (hnu : ∀ j (hj : j < items.length), ¬ needsUpdate items[j]) :
    (updateExif (some d)).1 = .NO_ERROR ∧
    (updateExif (some d)).2.take 14 = d.take 14 ∧
    decode2 (updateExif (some d)).2 14 big = decode2 d 14 big + 1 ∧
    ((updateExif (some d)).2.drop 16).take 12 = jrEntry big ∧
    (updateExif (some d)).2.drop 28 = d.drop 16 :=
  updateExif_layout d items big hend hcount hcountlt hreg hdec htag hnu

theorem C4_exact_layout_witness :
    (updateExif (some exifInlineInput)).1 = .NO_ERROR ∧
    (updateExif (some exifInlineInput)).2.take 14 = exifInlineInput.take 14 ∧
    decode2 (updateExif (some exifInlineInput)).2 14 false =
      decode2 exifInlineInput 14 false + 1 ∧
    ((updateExif (some exifInlineInput)).2.drop 16).take 12 =
      jrEntry false ∧
    (updateExif (some exifInlineInput)).2.drop 28 =
      exifInlineInput.drop 16 :=
  C4_exact_layout exifInlineInput [⟨0x0111, 1, 1, 7⟩] false
    (by decide) (by decide) (by decide) (by decide) (by decide) (by decide)
    (by decide)

/-- C5 counterexample: the walk meets an entry whose format code 13 is
outside the table (`findFormatLengthInBytes` yields -1), yet `updateExif`
returns `NO_ERROR` — not `ERROR_JPEGR_METADATA_ERROR` as the claim
requires. -/
theorem C5_counterexample :
    findFormatLengthInBytes 13 = -1 ∧
    decode2 exifUnknownFormatInput 18 false = 13 ∧
    (updateExif (some exifUnknownFormatInput)).1 = .NO_ERROR ∧
    (updateExif (some exifUnknownFormatInput)).1 ≠
      .ERROR_JPEGR_METADATA_ERROR := by decide

/-- C5 (amended): an unknown format code fails silently: the -1 returned by
`findFormatLengthInBytes` makes `-1 · count ≤ 4` for every non-negative
count, so the walk treats the entry as inline, leaves its value field
unchanged, and `updateExif` still reports `NO_ERROR`. -/
theorem C5_unknown_format_silent (d : List Nat)
    (items : List (ExifEntry × Option (List ExifEntry))) (big : Bool)
    (j0 : Nat)
    (hend : (big = false ∧ byteAt d 6 = 0x49 ∧ byteAt d 7 = 0x49) ∨
      (big = true ∧ byteAt d 6 = 0x4d ∧ byteAt d 7 = 0x4d))
    (hcount : decode2 d 14 big = items.length)
    (hreg : 16 + 12 * items.length ≤ d.length)
    (hdec : ∀ j (hj : j < items.length),
      decodesEntryAt d (16 + 12 * j) big (items[j].1))
    (hval : ∀ j (hj : j < items.length), (items[j].1).value + 12 < 4294967296)
    (hflat : ∀ j (hj : j < items.length), items[j].2 = none →
      (items[j].1).tag ≠ 0x8769)
    (hsub : ∀ j (hj : j < items.length), ∀ fs, items[j].2 = some fs →
      (items[j].1).tag = 0x8769 ∧ (items[j].1).value < 2147483648 ∧
      decode2 d ((items[j].1).value + 6) big = fs.length ∧
      (∀ k (hk : k < fs.length),
        decodesEntryAt d ((items[j].1).value + 8 + 12 * k) big fs[k]) ∧
      (∀ k (hk : k < fs.length), (fs[k]).tag ≠ 0x8769) ∧
      (∀ k (hk : k < fs.length), (fs[k]).value + 12 < 4294967296) ∧
      16 + 12 * items.length ≤ (items[j].1).value + 6 ∧
      (items[j].1).value + 8 + 12 * fs.length ≤ d.length)
    (huniq : ∀ j (hj : j < items.length), ∀ j' (hj' : j' < items.length),
      (items[j].2).isSome = true → (items[j'].2).isSome = true → j = j')
    (hj0 : j0 < items.length)
    (hfmt : findFormatLengthInBytes ((items[j0].1).format : Int) = -1)
    (hcnt : (items[j0].1).count < 2147483648)
    (htg : (items[j0].1).tag ≠ 0x8769) :
    (updateExif (some d)).1 = .NO_ERROR ∧
    decode4 (updateExif (some d)).2 (28 + 12 * j0 + 8) big =
      (items[j0].1).value := by
  obtain ⟨h1, _, h3, _⟩ := updateExif_walk_spec d items big hend hcount hreg
    hdec hval hflat hsub huniq
  refine ⟨h1, ?_⟩
  have hnu : ¬ needsUpdate (items[j0].1) := by
    unfold needsUpdate
    rw [hfmt, toInt32_of_lt hcnt]
    omega
  have := h3 j0 hj0
  rw [if_neg (not_or.mpr ⟨htg, hnu⟩)] at this
  exact this

theorem C5_unknown_format_silent_witness :
    (updateExif (some exifUnknownFormatInput)).1 = .NO_ERROR ∧
    decode4 (updateExif (some exifUnknownFormatInput)).2 (28 + 12 * 0 + 8)
      false = 26 :=
  C5_unknown_format_silent exifUnknownFormatInput
    [(⟨0x0111, 13, 1, 26⟩, none)] false 0
    (by decide) (by decide) (by decide) (by decide) (by decide) (by decide)
    (by decide) (by decide) (by decide) (by decide) (by decide) (by decide)

end recoverymap
